import Mathlib

/-!
Verification development for the dllwalk repository: a shallow embedding of
its three core subsystems (binary image parser, search-path resolver,
resolution engine with graph walker) together with theorems settling the
frozen claims about them.

Conventions of the embedding:
* Rust `u32`/`u16` values are `Nat` with explicit `% 2 ^ 32` / `% 2 ^ 16`
  where the code's machine arithmetic can wrap (release-profile wrapping
  semantics).
* Byte slices are `List Nat` (each element a byte value).
* Rust `HashMap<String, _>` becomes an association list `List (String × _)`
  with first-match lookup and replacing insert; only lookup, insert and key
  enumeration are used by the code, for which this is an exact model.
* Fallible code returns `Option`/`Except`; a Rust slice-indexing panic is
  modelled explicitly by the `PResult.panic` constructor.
* The database model carries a ghost `log` field recording collaborator
  invocations (search-path queries and binary-image parses).  It is write-only
  instrumentation: no code path reads it, so it cannot affect behaviour.
-/

namespace Dllwalk

/-- File-system paths, kept abstract as strings. -/
abbrev FsPath := String

/-- ASCII case folding of one character, the fragment of Rust's
`char::to_lowercase` relevant to module names. -/
def lowerChar (c : Char) : Char :=
  if 'A' ≤ c ∧ c ≤ 'Z' then Char.ofNat (c.toNat + 32) else c

/-- ASCII case folding of a string, modelling `str::to_lowercase` on the
ASCII module names this program handles. -/
def lowerStr (s : String) : String :=
  ⟨s.data.map lowerChar⟩

/-- First-match association-list lookup, modelling `HashMap::get`. -/
def lookupA {α : Type} : List (String × α) → String → Option α
  | [], _ => none
  | (k, v) :: t, key => if k = key then some v else lookupA t key

/-- Replacing association-list insert, modelling `HashMap::insert`. -/
def insertA {α : Type} : List (String × α) → String → α → List (String × α)
  | [], key, val => [(key, val)]
  | (k, v) :: t, key, val =>
    if k = key then (key, val) :: t else (k, v) :: insertA t key val

/-- Key enumeration of an association list, modelling `HashMap::keys`. -/
def keysA {α : Type} (l : List (String × α)) : List String :=
  l.map Prod.fst

theorem lookupA_insertA_self {α : Type} (l : List (String × α)) (k : String) (v : α) :
    lookupA (insertA l k v) k = some v := by
  induction l with
  | nil => simp [insertA, lookupA]
  | cons h t ih =>
    obtain ⟨k', v'⟩ := h
    by_cases hk : k' = k
    · simp [insertA, hk, lookupA]
    · simp [insertA, hk, lookupA, ih]

theorem lookupA_insertA_ne {α : Type} (l : List (String × α)) (k k' : String) (v : α)
    (h : k' ≠ k) : lookupA (insertA l k v) k' = lookupA l k' := by
  have hk'' : ¬ k = k' := fun hh => h hh.symm
  induction l with
  | nil => simp [insertA, lookupA, hk'']
  | cons hd t ih =>
    obtain ⟨k0, v0⟩ := hd
    by_cases hk : k0 = k
    · subst hk
      simp [insertA, lookupA, hk'']
    · by_cases hk' : k0 = k'
      · simp [insertA, hk, lookupA, hk', h]
      · simp [insertA, hk, lookupA, hk', ih]

theorem insertA_cons_eq {α : Type} (t : List (String × α)) (k0 k : String) (v0 v : α)
    (hk : k0 = k) : insertA ((k0, v0) :: t) k v = (k, v) :: t := by
  simp [insertA, hk]

theorem insertA_cons_ne {α : Type} (t : List (String × α)) (k0 k : String) (v0 v : α)
    (hk : ¬ k0 = k) : insertA ((k0, v0) :: t) k v = (k0, v0) :: insertA t k v := by
  simp [insertA, hk]

theorem keysA_insertA_mem {α : Type} (l : List (String × α)) (k : String) (v : α) :
    k ∈ keysA (insertA l k v) := by
  induction l with
  | nil => simp [insertA, keysA]
  | cons hd t ih =>
    obtain ⟨k0, v0⟩ := hd
    by_cases hk : k0 = k
    · rw [insertA_cons_eq t k0 k v0 v hk]
      simp [keysA]
    · rw [insertA_cons_ne t k0 k v0 v hk]
      simp only [keysA, List.map_cons, List.mem_cons]
      exact Or.inr ih

theorem keysA_insertA_sub {α : Type} (l : List (String × α)) (k : String) (v : α)
    (m : String) (hm : m ∈ keysA l) : m ∈ keysA (insertA l k v) := by
  induction l with
  | nil => simp [keysA] at hm
  | cons hd t ih =>
    obtain ⟨k0, v0⟩ := hd
    simp only [keysA, List.map_cons, List.mem_cons] at hm
    by_cases hk : k0 = k
    · rw [insertA_cons_eq t k0 k v0 v hk]
      simp only [keysA, List.map_cons, List.mem_cons]
      rcases hm with hm | hm
      · exact Or.inl (hm.trans hk)
      · exact Or.inr hm
    · rw [insertA_cons_ne t k0 k v0 v hk]
      simp only [keysA, List.map_cons, List.mem_cons]
      rcases hm with hm | hm
      · exact Or.inl hm
      · exact Or.inr (ih hm)

/-- The five provenance classifications of `DllType` in main.rs. -/
inductive DllType where
  | user
  | path
  | system
  | known
  | umbrella
deriving DecidableEq, Repr

/-! ### A small regular-expression engine

Embeds the one regex the source builds,
`Regex::new(r"(api|ext)-.*-l\d+-\d+-\d+.dll")`, with Brzozowski-derivative
matching.  `anyNotNl` is the regex metacharacter dot (any character except
newline); `digitCls` is the ASCII fragment of the d-class, which agrees with
the full class on the ASCII module names this program handles.  Rust's
`Regex::is_match` is unanchored, modelled by padding with `star anyChar`. -/
inductive Regex where
  | emp
  | eps
  | chr (c : Char)
  | anyNotNl
  | anyChar
  | digitCls
  | cat (r1 r2 : Regex)
  | alt (r1 r2 : Regex)
  | star (r : Regex)
deriving DecidableEq, Repr

/-- Does the regex accept the empty string? -/
def Regex.nullable : Regex → Bool
  | .emp => false
  | .eps => true
  | .chr _ => false
  | .anyNotNl => false
  | .anyChar => false
  | .digitCls => false
  | .cat r1 r2 => r1.nullable && r2.nullable
  | .alt r1 r2 => r1.nullable || r2.nullable
  | .star _ => true

/-- Simplifying concatenation, keeping derivative terms small. -/
def Regex.rcat : Regex → Regex → Regex
  | .emp, _ => .emp
  | .eps, r2 => r2
  | r1, r2 =>
    match r2 with
    | .emp => .emp
    | .eps => r1
    | _ => .cat r1 r2

/-- Simplifying alternation, keeping derivative terms small. -/
def Regex.ralt : Regex → Regex → Regex
  | .emp, r2 => r2
  | r1, r2 =>
    match r2 with
    | .emp => r1
    | _ => .alt r1 r2

/-- Brzozowski derivative of a regex by one character. -/
def Regex.deriv : Regex → Char → Regex
  | .emp, _ => .emp
  | .eps, _ => .emp
  | .chr c, a => if a = c then .eps else .emp
  | .anyNotNl, a => if a = '\n' then .emp else .eps
  | .anyChar, _ => .eps
  | .digitCls, a => if '0' ≤ a ∧ a ≤ '9' then .eps else .emp
  | .cat r1 r2, a =>
    if r1.nullable then .ralt (.rcat (r1.deriv a) r2) (r2.deriv a)
    else .rcat (r1.deriv a) r2
  | .alt r1 r2, a => .ralt (r1.deriv a) (r2.deriv a)
  | .star r, a => .rcat (r.deriv a) (.star r)

/-- Anchored regex matching by iterated derivatives. -/
def Regex.rmatch (r : Regex) : List Char → Bool
  | [] => r.nullable
  | c :: cs => (r.deriv c).rmatch cs

/-- Literal-string regex. -/
def Regex.rstr (s : String) : Regex :=
  s.data.foldr (fun c r => .cat (.chr c) r) .eps

/-- One-or-more repetition of the ASCII digit class. -/
def Regex.digits1 : Regex := .cat .digitCls (.star .digitCls)

/-- The umbrella-module pattern the source compiles in `SearchPath::new`:
(api|ext)-, then any run, then -l, three dash-separated digit runs, any
character, then dll. -/
def umbrellaRegex : Regex :=
  .cat (.alt (.rstr "api") (.rstr "ext"))
    (.cat (.chr '-')
      (.cat (.star .anyNotNl)
        (.cat (.rstr "-l")
          (.cat Regex.digits1
            (.cat (.chr '-')
              (.cat Regex.digits1
                (.cat (.chr '-')
                  (.cat Regex.digits1
                    (.cat .anyNotNl (.rstr "dll"))))))))))

/-- Unanchored substring matching, modelling `Regex::is_match`. -/
def Regex.isMatch (r : Regex) (s : String) : Bool :=
  (Regex.cat (.star .anyChar) (Regex.cat r (.star .anyChar))).rmatch s.data

/-- The umbrella-pattern test applied in `SearchPath::search`. -/
def umbrellaIsMatch (s : String) : Bool :=
  umbrellaRegex.isMatch s

/-! ### The search-path snapshot and its lookup -/

/-- The `SearchPath` snapshot of search_path.rs: one immutable bucket per
search location plus the safe-search flag.  The compiled umbrella regex field
is the constant `umbrellaRegex` and is not repeated here. -/
structure SearchPath where
  safe_search_enabled : Bool
  base_directory_files : List (String × FsPath)
  known_dll_files : List (String × FsPath)
  system_directory_files : List (String × FsPath)
  windows_directory_files : List (String × FsPath)
  path_directory_files : List (List (String × FsPath))
  current_directory_files : List (String × FsPath)

/-- The for-loop over `path_directory_files` in `SearchPath::search`:
first PATH bucket containing the name wins. -/
def searchPathDirs : List (List (String × FsPath)) → String → Option FsPath
  | [], _ => none
  | b :: rest, n =>
    match lookupA b n with
    | some p => some p
    | none => searchPathDirs rest n

/-- `SearchPath::search`: lowercase the query, then probe the buckets in the
order written in the source, one branch per safe-search mode, falling back to
the umbrella-pattern test. -/
def SearchPath.search (sp : SearchPath) (name : String) : Option (FsPath × DllType) :=
  let n := lowerStr name
  if sp.safe_search_enabled then
    match lookupA sp.known_dll_files n with
    | some p => some (p, .known)
    | none =>
      match lookupA sp.base_directory_files n with
      | some p => some (p, .user)
      | none =>
        match lookupA sp.system_directory_files n with
        | some p => some (p, .system)
        | none =>
          match lookupA sp.windows_directory_files n with
          | some p => some (p, .system)
          | none =>
            match lookupA sp.current_directory_files n with
            | some p => some (p, .user)
            | none =>
              match searchPathDirs sp.path_directory_files n with
              | some p => some (p, .path)
              | none =>
                if umbrellaIsMatch n then some ("", .umbrella) else none
  else
    match lookupA sp.known_dll_files n with
    | some p => some (p, .known)
    | none =>
      match lookupA sp.base_directory_files n with
      | some p => some (p, .user)
      | none =>
        match lookupA sp.current_directory_files n with
        | some p => some (p, .user)
        | none =>
          match lookupA sp.system_directory_files n with
          | some p => some (p, .system)
          | none =>
            match lookupA sp.windows_directory_files n with
            | some p => some (p, .system)
            | none =>
              match searchPathDirs sp.path_directory_files n with
              | some p => some (p, .path)
              | none =>
                if umbrellaIsMatch n then some ("", .umbrella) else none

/-! ### The specification's bucket order (refinement target for C2)

These definitions follow the words of the specification, not the source:
an explicit ordered bucket list per safe-search mode, scanned for the first
bucket containing the name, with a fixed classification per bucket. -/

/-- The ordered bucket list stated by the specification. -/
def specBucketOrder (sp : SearchPath) : List (List (String × FsPath) × DllType) :=
  if sp.safe_search_enabled then
    [(sp.known_dll_files, .known), (sp.base_directory_files, .user),
     (sp.system_directory_files, .system), (sp.windows_directory_files, .system),
     (sp.current_directory_files, .user)]
      ++ sp.path_directory_files.map (fun b => (b, .path))
  else
    [(sp.known_dll_files, .known), (sp.base_directory_files, .user),
     (sp.current_directory_files, .user), (sp.system_directory_files, .system),
     (sp.windows_directory_files, .system)]
      ++ sp.path_directory_files.map (fun b => (b, .path))

/-- First bucket in the ordered list that contains the name decides the
result and its classification. -/
def firstBucketHit : List (List (String × FsPath) × DllType) → String →
    Option (FsPath × DllType)
  | [], _ => none
  | (b, ty) :: rest, n =>
    match lookupA b n with
    | some p => some (p, ty)
    | none => firstBucketHit rest n

/-- The specification's resolver: ordered bucket scan, then the
umbrella-pattern fallback. -/
def specSearch (sp : SearchPath) (name : String) : Option (FsPath × DllType) :=
  let n := lowerStr name
  match firstBucketHit (specBucketOrder sp) n with
  | some r => some r
  | none => if umbrellaIsMatch n then some ("", .umbrella) else none

theorem firstBucketHit_map_path (bs : List (List (String × FsPath))) (n : String) :
    firstBucketHit (bs.map (fun b => (b, DllType.path))) n =
      (searchPathDirs bs n).map (fun p => (p, DllType.path)) := by
  induction bs with
  | nil => simp [firstBucketHit, searchPathDirs]
  | cons b rest ih =>
    simp only [List.map_cons, firstBucketHit, searchPathDirs]
    cases lookupA b n with
    | none => simpa using ih
    | some p => simp

theorem search_eq_specSearch (sp : SearchPath) (name : String) :
    SearchPath.search sp name = specSearch sp name := by
  by_cases hs : sp.safe_search_enabled
  all_goals
    cases h1 : lookupA sp.known_dll_files (lowerStr name) <;>
    cases h2 : lookupA sp.base_directory_files (lowerStr name) <;>
    cases h3 : lookupA sp.system_directory_files (lowerStr name) <;>
    cases h4 : lookupA sp.windows_directory_files (lowerStr name) <;>
    cases h5 : lookupA sp.current_directory_files (lowerStr name) <;>
    cases h6 : searchPathDirs sp.path_directory_files (lowerStr name) <;>
      simp [SearchPath.search, specSearch, specBucketOrder, firstBucketHit, hs,
        h1, h2, h3, h4, h5, h6, firstBucketHit_map_path]

/-! ### The binary image (PE) parser

Byte input is `List Nat`; readers mirror the nom combinators of the source:
they return `none` on a structural error and otherwise the remaining input
paired with the parsed value.  `PRes` adds the `panic` outcome for the raw
slice indexing done in `File::parse`, which Rust bounds-checks in every build
profile. -/

/-- Outcome of a computation that can also hit a Rust panic. -/
inductive PRes (α : Type) where
  | ok (a : α)
  | err
  | panic
deriving DecidableEq, Repr

/-- Wrap-around modulus of `u32`. -/
def u32Mod : Nat := 4294967296

/-- Wrapping `u32` addition. -/
def wadd (a b : Nat) : Nat := (a + b) % u32Mod

/-- Wrapping `u32` subtraction. -/
def wsub (a b : Nat) : Nat := (a + (u32Mod - b % u32Mod)) % u32Mod

/-- nom `take n`: split off `n` bytes or fail. -/
def takeBytes (n : Nat) (input : List Nat) : Option (List Nat × List Nat) :=
  if n ≤ input.length then some (input.drop n, input.take n) else none

/-- nom `tag t`: expect the literal bytes `t`. -/
def tagBytes (t : List Nat) (input : List Nat) : Option (List Nat × List Nat) :=
  if t.length ≤ input.length ∧ input.take t.length = t
  then some (input.drop t.length, t) else none

/-- nom `le_u16`: two bytes, little endian. -/
def le_u16 : List Nat → Option (List Nat × Nat)
  | b0 :: b1 :: rest => some (rest, b0 % 256 + 256 * (b1 % 256))
  | _ => none

/-- nom `le_u32`: four bytes, little endian. -/
def le_u32 : List Nat → Option (List Nat × Nat)
  | b0 :: b1 :: b2 :: b3 :: rest =>
    some (rest, b0 % 256 + 256 * (b1 % 256) + 65536 * (b2 % 256)
      + 16777216 * (b3 % 256))
  | _ => none

/-- nom `take_while1 p` (complete): a non-empty maximal run of bytes
satisfying `p`; reaching end of input is acceptable. -/
def takeWhile1 (p : Nat → Bool) (input : List Nat) :
    Option (List Nat × List Nat) :=
  match input.takeWhile p with
  | [] => none
  | taken => some (input.dropWhile p, taken)

/-- Rust slice expression data(i..): the tail from index `i`, panicking when
`i` exceeds the slice length (in every build profile). -/
def sliceFrom (data : List Nat) (i : Nat) : PRes (List Nat) :=
  if i ≤ data.length then .ok (data.drop i) else .panic

/-- Modelled from the spec: msdos_header.rs is not part of the provided
sources.  Per the spec's legacy-stub-header stage, parsing reads the 4-byte
little-endian structural-header offset at fixed offset 0x3C and ignores every
other legacy-header byte; no further validation is described. -/
structure MsDosHeader where
  pe_offset : Nat

/-- Modelled from the spec: consume the 0x3C ignored bytes, then the
little-endian offset to the structural header. -/
def MsDosHeader.parse (input : List Nat) : Option (List Nat × MsDosHeader) :=
  match takeBytes 60 input with
  | none => none
  | some (rest, _) =>
    match le_u32 rest with
    | none => none
    | some (rest2, off) => some (rest2, ⟨off⟩)

/-- The two retained COFF header fields of coff_header.rs. -/
structure CoffHeader where
  number_of_sections : Nat
  size_of_optional_header : Nat

/-- `CoffHeader::parse`: the PE signature tag, machine type (ignored),
section count, 12 ignored bytes, optional-header size, characteristics
(ignored). -/
def CoffHeader.parse (input : List Nat) : Option (List Nat × CoffHeader) :=
  match tagBytes [0x50, 0x45, 0, 0] input with
  | none => none
  | some (r1, _) =>
    match le_u16 r1 with
    | none => none
    | some (r2, _machine) =>
      match le_u16 r2 with
      | none => none
      | some (r3, nsections) =>
        match takeBytes 12 r3 with
        | none => none
        | some (r4, _) =>
          match le_u16 r4 with
          | none => none
          | some (r5, sizeOpt) =>
            match le_u16 r5 with
            | none => none
            | some (r6, _chars) => some (r6, ⟨nsections, sizeOpt⟩)

/-- An (address, size) data-directory pair of the optional header. -/
structure DataDirectoryEntry where
  rva : Nat
  dir_size : Nat

/-- The one datum the source keeps from the optional header. -/
structure OptionalHeader where
  import_table : Option DataDirectoryEntry

/-- `OptionalHeader::get_import_table_entry`. -/
def OptionalHeader.get_import_table_entry (o : OptionalHeader) :
    Option DataDirectoryEntry :=
  o.import_table

/-- Modelled from the spec: optional_header.rs is not part of the provided
sources.  Per the spec, the block is architecture-sensitive (32- vs 64-bit,
distinguished by the leading magic) and the only extracted datum is the
Import Table data-directory (address, size) pair; the block layout is the
standard one the spec's byte-exact table implies: magic 0x10B puts the import
directory entry at optional-header offset 104 within a 224-byte header,
magic 0x20B at offset 120 within a 240-byte header. -/
def OptionalHeader.parse (input : List Nat) :
    Option (List Nat × OptionalHeader) :=
  match le_u16 input with
  | none => none
  | some (r1, magic) =>
    if magic = 0x10B then
      match takeBytes 102 r1 with
      | none => none
      | some (r2, _) =>
        match le_u32 r2 with
        | none => none
        | some (r3, rva) =>
          match le_u32 r3 with
          | none => none
          | some (r4, sz) =>
            match takeBytes 112 r4 with
            | none => none
            | some (r5, _) => some (r5, ⟨some ⟨rva, sz⟩⟩)
    else if magic = 0x20B then
      match takeBytes 118 r1 with
      | none => none
      | some (r2, _) =>
        match le_u32 r2 with
        | none => none
        | some (r3, rva) =>
          match le_u32 r3 with
          | none => none
          | some (r4, sz) =>
            match takeBytes 112 r4 with
            | none => none
            | some (r5, _) => some (r5, ⟨some ⟨rva, sz⟩⟩)
    else none

/-- One section-table record, the four retained fields plus the name. -/
structure Section where
  name : String
  virtual_size : Nat
  virtual_address : Nat
  raw_data_size : Nat
  raw_data_address : Nat
deriving DecidableEq, Repr

/-- The parsed section table. -/
structure SectionTable where
  sections : List Section
deriving DecidableEq, Repr

/-- Drop trailing NUL bytes, as `trim_end_matches` on the 8-byte name. -/
def trimNulEnd (l : List Nat) : List Nat :=
  (l.reverse.dropWhile (fun b => b % 256 = 0)).reverse

/-- Decode the NUL-trimmed 8-byte name as a string
(`String::from_utf8_lossy` on the ASCII names in scope). -/
def sectionName (bytes : List Nat) : String :=
  ⟨(trimNulEnd bytes).map (fun b => Char.ofNat (b % 256))⟩

/-- One 40-byte section record: 8-byte name, six u32 fields (only the first
four retained), two u16 and one u32, all ignored. -/
def parseSectionRecord (input : List Nat) : Option (List Nat × Section) :=
  match takeBytes 8 input with
  | none => none
  | some (r1, nameBytes) =>
    match le_u32 r1 with
    | none => none
    | some (r2, vsize) =>
      match le_u32 r2 with
      | none => none
      | some (r3, vaddr) =>
        match le_u32 r3 with
        | none => none
        | some (r4, rsize) =>
          match le_u32 r4 with
          | none => none
          | some (r5, raddr) =>
            match le_u32 r5 with
            | none => none
            | some (r6, _) =>
              match le_u32 r6 with
              | none => none
              | some (r7, _) =>
                match le_u16 r7 with
                | none => none
                | some (r8, _) =>
                  match le_u16 r8 with
                  | none => none
                  | some (r9, _) =>
                    match le_u32 r9 with
                    | none => none
                    | some (r10, _) =>
                      some (r10, ⟨sectionName nameBytes, vsize, vaddr, rsize, raddr⟩)

/-- nom `count`: exactly `n` section records. -/
def parseSectionRecords : Nat → List Nat → Option (List Nat × List Section)
  | 0, input => some (input, [])
  | n + 1, input =>
    match parseSectionRecord input with
    | none => none
    | some (rest, s) =>
      match parseSectionRecords n rest with
      | none => none
      | some (rest2, ss) => some (rest2, s :: ss)

/-- `SectionTable::parse`. -/
def SectionTable.parse (input : List Nat) (number_of_sections : Nat) :
    Option (List Nat × SectionTable) :=
  match parseSectionRecords number_of_sections input with
  | none => none
  | some (rest, ss) => some (rest, ⟨ss⟩)

/-- The linear scan of `SectionTable::rva_to_file_offset`, with the source's
u32 arithmetic made explicit as wrapping operations. -/
def sectionsScan : List Section → Nat → Option Nat
  | [], _ => none
  | s :: rest, rva =>
    if s.virtual_address ≤ rva ∧ rva < wadd s.virtual_address s.virtual_size
    then some (wsub (wadd s.raw_data_address rva) s.virtual_address)
    else sectionsScan rest rva

/-- `SectionTable::rva_to_file_offset`. -/
def SectionTable.rva_to_file_offset (t : SectionTable) (rva : Nat) : Option Nat :=
  sectionsScan t.sections rva

/-- One import-directory record: the two retained u32 fields. -/
structure DirectoryEntry where
  import_lookup_table_rva : Nat
  name_rva : Nat
deriving DecidableEq, Repr

/-- One imported module name. -/
structure ImportedDll where
  name : String
deriving DecidableEq, Repr

/-- The parsed import table. -/
structure ImportTable where
  imports : List ImportedDll
deriving DecidableEq, Repr

/-- Five little-endian u32 reads: one 20-byte import directory record. -/
def read20 (input : List Nat) :
    Option (List Nat × (Nat × Nat × Nat × Nat × Nat)) :=
  match le_u32 input with
  | none => none
  | some (r1, a) =>
    match le_u32 r1 with
    | none => none
    | some (r2, b) =>
      match le_u32 r2 with
      | none => none
      | some (r3, c) =>
        match le_u32 r3 with
        | none => none
        | some (r4, d) =>
          match le_u32 r4 with
          | none => none
          | some (r5, e) => some (r5, (a, b, c, d, e))

theorem le_u32_length {input rest : List Nat} {v : Nat}
    (h : le_u32 input = some (rest, v)) : rest.length + 4 = input.length := by
  match input, h with
  | b0 :: b1 :: b2 :: b3 :: r, h =>
    simp only [le_u32, Option.some.injEq, Prod.mk.injEq] at h
    rw [← h.1]
    simp [List.length_cons]

theorem read20_length {input rest : List Nat} {e : Nat × Nat × Nat × Nat × Nat}
    (h : read20 input = some (rest, e)) : rest.length + 20 = input.length := by
  unfold read20 at h
  cases h1 : le_u32 input with
  | none => simp [h1] at h
  | some p1 =>
    obtain ⟨r1, a⟩ := p1
    simp only [h1] at h
    cases h2 : le_u32 r1 with
    | none => simp [h2] at h
    | some p2 =>
      obtain ⟨r2, b⟩ := p2
      simp only [h2] at h
      cases h3 : le_u32 r2 with
      | none => simp [h3] at h
      | some p3 =>
        obtain ⟨r3, c⟩ := p3
        simp only [h3] at h
        cases h4 : le_u32 r3 with
        | none => simp [h4] at h
        | some p4 =>
          obtain ⟨r4, d⟩ := p4
          simp only [h4] at h
          cases h5 : le_u32 r4 with
          | none => simp [h5] at h
          | some p5 =>
            obtain ⟨r5, e5⟩ := p5
            simp only [h5, Option.some.injEq, Prod.mk.injEq] at h
            have l1 := le_u32_length h1
            have l2 := le_u32_length h2
            have l3 := le_u32_length h3
            have l4 := le_u32_length h4
            have l5 := le_u32_length h5
            rw [← h.1]
            omega

/-- The loop body of `ImportTable::parse_import_directory_table`, with an
explicit structural fuel so the definition computes by reduction.  Each
iteration consumes 20 bytes, so `input.length / 20 + 1` fuel always suffices
and the fuel-exhausted branch is unreachable (`parseIDTFuel_fuel_irrel`
below). -/
def parseIDTFuel : Nat → List Nat → Option (List Nat × List DirectoryEntry)
  | 0, _ => none
  | fuel + 1, input =>
    match read20 input with
    | none => none
    | some (rest, (a, _b, _c, d, _e)) =>
      if a = 0 then some (rest, [])
      else
        match parseIDTFuel fuel rest with
        | none => none
        | some (rest2, entries) => some (rest2, ⟨a, d⟩ :: entries)

/-- `ImportTable::parse_import_directory_table`: consecutive 20-byte records
until (and including, in consumed input) the first record whose first field
is zero; that terminator is not materialized. -/
def parseImportDirectoryTable (input : List Nat) :
    Option (List Nat × List DirectoryEntry) :=
  parseIDTFuel (input.length / 20 + 1) input

/-- Any fuel of at least `input.length / 20 + 1` computes the same result:
the loop never runs out of fuel before the byte stream runs out. -/
theorem parseIDTFuel_fuel_irrel (fuel fuel' : Nat) (input : List Nat)
    (h : input.length / 20 + 1 ≤ fuel) (h' : input.length / 20 + 1 ≤ fuel') :
    parseIDTFuel fuel input = parseIDTFuel fuel' input := by
  induction fuel generalizing fuel' input with
  | zero => omega
  | succ f ih =>
    match fuel', h' with
    | f' + 1, h' =>
      simp only [parseIDTFuel]
      cases hr : read20 input with
      | none => simp
      | some p =>
        obtain ⟨rest, a, b, c, d, e⟩ := p
        have hlen := read20_length hr
        by_cases ha : a = 0
        · simp [ha]
        · have hrest : rest.length / 20 + 1 ≤ f := by omega
          have hrest' : rest.length / 20 + 1 ≤ f' := by omega
          simp [ha, ih f' rest hrest hrest']

/-- ASCII fragment of `std::str::from_utf8` for the module names in scope:
bytes below 0x80 decode to the corresponding characters, anything else is a
decode failure. -/
def utf8DecodeAscii (bs : List Nat) : Option String :=
  if bs.all (fun b => b % 256 < 128)
  then some ⟨bs.map (fun b => Char.ofNat (b % 256))⟩ else none

/-- The name-reading for-loop of `ImportTable::parse`: jump to each entry's
name rva, read a maximal non-NUL run, decode it. -/
def readImportNames (rvaToSlice : Nat → PRes (Option (List Nat))) :
    List DirectoryEntry → PRes (List ImportedDll)
  | [] => .ok []
  | e :: rest =>
    match rvaToSlice e.name_rva with
    | .panic => .panic
    | .err => .err
    | .ok none => .err
    | .ok (some d) =>
      match takeWhile1 (fun b => b % 256 ≠ 0) d with
      | none => .err
      | some (_, nameBytes) =>
        match utf8DecodeAscii nameBytes with
        | none => .err
        | some nm =>
          match readImportNames rvaToSlice rest with
          | .ok l => .ok (⟨nm⟩ :: l)
          | .err => .err
          | .panic => .panic

/-- `ImportTable::parse`. -/
def ImportTable.parse (input : List Nat)
    (rvaToSlice : Nat → PRes (Option (List Nat))) :
    PRes (List Nat × ImportTable) :=
  match parseImportDirectoryTable input with
  | none => .err
  | some (remaining, table) =>
    match readImportNames rvaToSlice table with
    | .panic => .panic
    | .err => .err
    | .ok imports => .ok (remaining, ⟨imports⟩)

/-- The parse result of one executable: its ordered import list. -/
structure File where
  imports : List ImportedDll
deriving DecidableEq, Repr

/-- `File::new`: the empty image synthesized for umbrella modules. -/
def File.new : File := ⟨[]⟩

/-- `File::parse`: the full cascade of file.rs, with the source's raw slice
expressions modelled by `sliceFrom` (out-of-range start panics). -/
def File.parse (data : List Nat) : PRes File :=
  match MsDosHeader.parse data with
  | none => .err
  | some (_, msdos) =>
    match sliceFrom data msdos.pe_offset with
    | .err => .err
    | .panic => .panic
    | .ok slice1 =>
      match CoffHeader.parse slice1 with
      | none => .err
      | some (input1, coff) =>
        match OptionalHeader.parse input1 with
        | none => .err
        | some (input2, opt) =>
          match SectionTable.parse input2 coff.number_of_sections with
          | none => .err
          | some (_, st) =>
            match opt.get_import_table_entry with
            | none => .ok ⟨[]⟩
            | some entry =>
              if entry.rva ≠ 0 then
                match st.rva_to_file_offset entry.rva with
                | none => .err
                | some off =>
                  match sliceFrom data off with
                  | .err => .err
                  | .panic => .panic
                  | .ok tableSlice =>
                    match ImportTable.parse tableSlice (fun rva =>
                      match st.rva_to_file_offset rva with
                      | none => .ok none
                      | some o =>
                        match sliceFrom data o with
                        | .err => .err
                        | .panic => .panic
                        | .ok s => .ok (some s)) with
                    | .panic => .panic
                    | .err => .err
                    | .ok (_, it) => .ok ⟨it.imports⟩
              else .ok ⟨[]⟩

/-! ### The resolution engine (dll_database.rs) and graph walker (main.rs)

The filesystem read collaborator (`std::fs::read`) is an association list
from path to byte contents; an absent path is a read error.  The database
carries the ghost `log` of collaborator invocations: one `searchEv` per
`SearchPath::search` call and one `parseEv` per `File::parse` call (emitted
exactly when a non-umbrella search hit resolves to a readable file, the
condition under which the source reaches `File::parse`). -/

/-- The filesystem collaborator: path to byte contents, absent = read error. -/
abbrev FileSys := List (String × List Nat)

/-- `DllInfo`: a resolved module. -/
structure DllInfo where
  path : FsPath
  dll_type : DllType
  file : File
deriving DecidableEq, Repr

/-- Ghost record of one collaborator invocation. -/
inductive Event where
  | searchEv (name : String)
  | parseEv (name : String)
deriving DecidableEq, Repr

/-- `DllDatabase`: the catalog map plus the ghost invocation log. -/
structure DllDatabase where
  files : List (String × Option DllInfo)
  log : List Event
deriving DecidableEq, Repr

/-- The fresh catalog `DllDatabase::new` starts from (its search path is
modelled separately as the `SearchPath` argument of each operation). -/
def DllDatabase.empty : DllDatabase := ⟨[], []⟩

/-- `DllDatabase::get_dll_info`: only a present, successful entry is
returned; an absent key and a recorded failure are indistinguishable here. -/
def get_dll_info (db : DllDatabase) (name : String) : Option DllInfo :=
  match lookupA db.files name with
  | some (some info) => some info
  | _ => none

/-- `DllDatabase::parse_dll`: umbrella modules synthesize an empty image;
otherwise read the file and parse it, mapping read and parse errors to
`None`.  A parser panic propagates. -/
def parse_dll (fs : FileSys) (path : FsPath) (ty : DllType) :
    PRes (Option DllInfo) :=
  if ty = DllType.umbrella then .ok (some ⟨path, ty, File.new⟩)
  else
    match lookupA fs path with
    | none => .ok none
    | some data =>
      match File.parse data with
      | .ok f => .ok (some ⟨path, ty, f⟩)
      | .err => .ok none
      | .panic => .panic

/-- The fresh-resolution computation inside `DllDatabase::search_dll`:
search the snapshot, then locate-and-parse on a hit. -/
def computeDllInfo (sp : SearchPath) (fs : FileSys) (name : String) :
    PRes (Option DllInfo) :=
  match sp.search name with
  | some (path, ty) => parse_dll fs path ty
  | none => .ok none

/-- Ghost event list of one fresh resolution: the search invocation, plus a
parse invocation exactly when the hit is non-umbrella and its file is
readable (the condition under which `parse_dll` reaches `File::parse`). -/
def computeEvents (sp : SearchPath) (fs : FileSys) (name : String) : List Event :=
  match sp.search name with
  | none => [.searchEv name]
  | some (path, ty) =>
    if ty = DllType.umbrella then [.searchEv name]
    else
      match lookupA fs path with
      | none => [.searchEv name]
      | some _ => [.searchEv name, .parseEv name]

/-- `DllDatabase::search_dll`: recompute unless `get_dll_info` already
returns a hit (note: a recorded failed resolution does not stop the
recomputation), store the outcome under the queried name as given, and
return `get_dll_info` of the result. -/
def search_dll (sp : SearchPath) (fs : FileSys) (db : DllDatabase)
    (name : String) : PRes (DllDatabase × Option DllInfo) :=
  if (get_dll_info db name).isNone then
    match computeDllInfo sp fs name with
    | .panic => .panic
    | .err => .err
    | .ok info =>
      let db' : DllDatabase :=
        ⟨insertA db.files name info, db.log ++ computeEvents sp fs name⟩
      .ok (db', get_dll_info db' name)
  else .ok (db, get_dll_info db name)

/-- `DllDatabase::get_all_dlls`: every catalog key, failed entries
included. -/
def get_all_dlls (db : DllDatabase) : List String := keysA db.files

/-- Number of ghost parse invocations recorded for one name. -/
def parseCount (log : List Event) (name : String) : Nat :=
  (log.filter (fun e => e = Event.parseEv name)).length

/-- Number of ghost search invocations recorded for one name. -/
def searchCount (log : List Event) (name : String) : Nat :=
  (log.filter (fun e => e = Event.searchEv name)).length

/-- The loop state of `walk_dlls`: catalog, seen-set, work list.  The work
list is the Rust `Vec` viewed from its pop end: the head is the
most-recently pushed element. -/
structure WalkState where
  db : DllDatabase
  visited : List String
  queue : List String
deriving Repr

/-- Outcome of a finished walk; `completed` is false when the run was cut
short by a parser panic (which aborts the Rust process). -/
structure WalkResult where
  db : DllDatabase
  visited : List String
  completed : Bool
deriving Repr

/-- `HashSet::insert` on the seen-set. -/
def insertSet (v : List String) (x : String) : List String :=
  if x ∈ v then v else x :: v

/-- The names one loop iteration pushes: each import of the resolved module
that is not yet in the seen-set, in import order (nothing for an unresolved
module). -/
def pushList (visited : List String) (info? : Option DllInfo) : List String :=
  match info? with
  | some info =>
    (info.file.imports.map ImportedDll.name).filter
      (fun m => decide (m ∉ visited))
  | none => []

/-- One-name initial state of `walk_dlls` with a fresh database, as main.rs
builds it. -/
def initWalk (name : String) : WalkState :=
  ⟨DllDatabase.empty, [], [name]⟩

/-- The `walk_dlls` loop of main.rs with explicit structural fuel: pop the
most recent name, resolve it through the catalog, push each import name not
yet in the seen-set (checked before the popped name is inserted), insert the
popped name, repeat until the work list is empty.  `none` means the fuel ran
out before the loop finished; the walk-termination theorem produces a
sufficient fuel. -/
def walkFuel (sp : SearchPath) (fs : FileSys) :
    Nat → WalkState → Option WalkResult
  | 0, _ => none
  | n + 1, S =>
    match S.queue with
    | [] => some ⟨S.db, S.visited, true⟩
    | name :: rest =>
      match search_dll sp fs S.db name with
      | .panic => some ⟨S.db, S.visited, false⟩
      | .err => some ⟨S.db, S.visited, false⟩
      | .ok (db', info?) =>
        walkFuel sp fs n
          ⟨db', insertSet S.visited name,
           (pushList S.visited info?).reverse ++ rest⟩

/-! ### Snapshot construction (`SearchPath::new`)

The collaborators the constructor consumes (registry reads, directory
listings, the PATH variable) are captured as an explicit input record; each
fallible collaborator result is an `Except Unit` value. -/

/-- Results of the external collaborator calls `SearchPath::new` makes. -/
structure SnapshotInputs where
  safeSearchDword : Except Unit Nat
  knownValueNames : Except Unit (List String)
  knownReadString : String → Except Unit String
  systemDir : Except Unit FsPath
  windowsDir : Except Unit FsPath
  readDir : FsPath → Except Unit (List (String × FsPath))
  pathDirs : List FsPath

/-- `SearchPath::safe_search_enabled`: a read `SafeDllSearchMode` dword is
interpreted as nonzero-means-enabled; a failed read degrades to `true`.
(Named apart from the homonymous snapshot field.) -/
def readSafeSearchEnabled (c : SnapshotInputs) : Bool :=
  match c.safeSearchDword with
  | .ok v => v ≠ 0
  | .error _ => true

/-- `SearchPath::get_knwon_dll_files` (source spelling): a failed value-name
enumeration propagates; individually failing value reads are dropped; names
are lowercased. -/
def get_knwon_dll_files (c : SnapshotInputs) : Except Unit (List String) :=
  match c.knownValueNames with
  | .error e => .error e
  | .ok values =>
    .ok ((values.filterMap (fun v => (c.knownReadString v).toOption)).map lowerStr)

/-- `Path::join` of the system directory and a file name. -/
def pjoin (dir : FsPath) (name : String) : FsPath := dir ++ "\\" ++ name

/-- `SearchPath::new`, in the source's statement order: the safe-search flag
(infallible by degradation), then the system directory, the known-DLL list,
the base, system, windows and current directory listings (each propagating
failure via the question-mark operator) and the per-entry-fallible PATH
listings. -/
def SearchPath.new (c : SnapshotInputs) (base_directory current_directory : FsPath) :
    Except Unit SearchPath :=
  let safe := readSafeSearchEnabled c
  match c.systemDir with
  | .error e => .error e
  | .ok system_directory =>
    match get_knwon_dll_files c with
    | .error e => .error e
    | .ok known_names =>
      let known_dll_files := known_names.map (fun n => (n, pjoin system_directory n))
      match c.readDir base_directory with
      | .error e => .error e
      | .ok base_files =>
        match c.readDir system_directory with
        | .error e => .error e
        | .ok system_files =>
          match c.windowsDir with
          | .error e => .error e
          | .ok windows_directory =>
            match c.readDir windows_directory with
            | .error e => .error e
            | .ok windows_files =>
              let path_files := c.pathDirs.filterMap (fun d => (c.readDir d).toOption)
              match c.readDir current_directory with
              | .error e => .error e
              | .ok current_files =>
                .ok ⟨safe, base_files, known_dll_files, system_files,
                  windows_files, path_files, current_files⟩

/-! ### Shared concrete fixtures for witnesses and counterexamples -/

/-- Little-endian two-byte encoding. -/
def le16bytes (n : Nat) : List Nat := [n % 256, n / 256 % 256]

/-- Little-endian four-byte encoding. -/
def le32bytes (n : Nat) : List Nat :=
  [n % 256, n / 256 % 256, n / 65536 % 256, n / 16777216 % 256]

/-- A 20-byte import directory record from its five u32 fields. -/
def encodeIDTEntry (a b c d e : Nat) : List Nat :=
  le32bytes a ++ le32bytes b ++ le32bytes c ++ le32bytes d ++ le32bytes e

/-- A minimal well-formed 32-bit executable: one .idata section at rva
0x1000 (file offset 0x160) holding an import directory with two entries,
both naming "x.dll" (stored at rva 0x1050, file offset 0x1B0). -/
def peFileA : List Nat :=
  List.replicate 60 0 ++ le32bytes 0x40
    ++ [0x50, 0x45, 0, 0] ++ le16bytes 0 ++ le16bytes 1 ++ List.replicate 12 0
    ++ le16bytes 0xE0 ++ le16bytes 0
    ++ le16bytes 0x10B ++ List.replicate 102 0 ++ le32bytes 0x1000
    ++ le32bytes 0x100 ++ List.replicate 112 0
    ++ [0x2e, 0x69, 0x64, 0x61, 0x74, 0x61, 0, 0] ++ le32bytes 0x100
    ++ le32bytes 0x1000 ++ le32bytes 0x100 ++ le32bytes 0x160
    ++ List.replicate 16 0
    ++ encodeIDTEntry 1 0 0 0x1050 0 ++ encodeIDTEntry 1 0 0 0x1050 0
    ++ List.replicate 20 0
    ++ List.replicate 20 0
    ++ [0x78, 0x2e, 0x64, 0x6c, 0x6c, 0]

/-- A snapshot with every bucket empty and safe search on. -/
def spEmptyEx : SearchPath := ⟨true, [], [], [], [], [], []⟩

/-! ### Supporting lemmas about the resolution engine -/

theorem lookupA_some_mem_keys {α : Type} {l : List (String × α)} {k : String}
    {v : α} (h : lookupA l k = some v) : k ∈ keysA l := by
  induction l with
  | nil => simp [lookupA] at h
  | cons hd t ih =>
    obtain ⟨k0, v0⟩ := hd
    by_cases hk : k0 = k
    · simp [keysA, hk]
    · simp only [lookupA, hk, if_false] at h
      simp only [keysA, List.map_cons, List.mem_cons]
      exact Or.inr (ih h)

theorem lookupA_mem {α : Type} {l : List (String × α)} {k : String} {v : α}
    (h : lookupA l k = some v) : (k, v) ∈ l := by
  induction l with
  | nil => simp [lookupA] at h
  | cons hd t ih =>
    obtain ⟨k0, v0⟩ := hd
    by_cases hk : k0 = k
    · subst hk
      simp [lookupA] at h
      simp [h]
    · simp only [lookupA, hk, if_false] at h
      exact List.mem_cons_of_mem _ (ih h)

theorem get_dll_info_of_lookup_none {db : DllDatabase} {n : String}
    (h : lookupA db.files n = none) : get_dll_info db n = none := by
  simp [get_dll_info, h]

theorem get_dll_info_of_lookup_fail {db : DllDatabase} {n : String}
    (h : lookupA db.files n = some none) : get_dll_info db n = none := by
  simp [get_dll_info, h]

theorem option_match_eta {α : Type} (o : Option α) :
    (match o with | some i => some i | none => none) = o := by
  cases o <;> rfl

theorem get_dll_info_after_insert (files : List (String × Option DllInfo))
    (l : List Event) (n : String) (info : Option DllInfo) :
    get_dll_info ⟨insertA files n info, l⟩ n = info := by
  show (match lookupA (insertA files n info) n with
    | some (some i) => some i
    | _ => none) = info
  rw [lookupA_insertA_self]
  cases info <;> rfl

theorem search_dll_cached {sp : SearchPath} {fs : FileSys} {db : DllDatabase}
    {n : String} {info : DllInfo} (h : get_dll_info db n = some info) :
    search_dll sp fs db n = .ok (db, some info) := by
  simp [search_dll, h]

theorem search_dll_fresh_ok {sp : SearchPath} {fs : FileSys} {db : DllDatabase}
    {n : String} {info : Option DllInfo} (h : get_dll_info db n = none)
    (hc : computeDllInfo sp fs n = .ok info) :
    search_dll sp fs db n =
      .ok (⟨insertA db.files n info, db.log ++ computeEvents sp fs n⟩, info) := by
  simp only [search_dll, h, Option.isNone_none, if_true, hc]
  rw [get_dll_info_after_insert]

theorem search_dll_fresh_panic {sp : SearchPath} {fs : FileSys}
    {db : DllDatabase} {n : String} (h : get_dll_info db n = none)
    (hc : computeDllInfo sp fs n = .panic) :
    search_dll sp fs db n = .panic := by
  simp [search_dll, h, hc]

theorem computeDllInfo_ne_err (sp : SearchPath) (fs : FileSys) (n : String) :
    computeDllInfo sp fs n ≠ .err := by
  unfold computeDllInfo
  cases hsearch : sp.search n with
  | none => simp
  | some pt =>
    obtain ⟨p, ty⟩ := pt
    unfold parse_dll
    by_cases hty : ty = DllType.umbrella
    · simp [hty]
    · simp only [hty, if_false]
      cases lookupA fs p with
      | none => simp
      | some data => cases hfp : File.parse data <;> simp [hfp]

theorem searchCount_append (l1 l2 : List Event) (n : String) :
    searchCount (l1 ++ l2) n = searchCount l1 n + searchCount l2 n := by
  simp [searchCount, List.filter_append]

theorem parseCount_append (l1 l2 : List Event) (n : String) :
    parseCount (l1 ++ l2) n = parseCount l1 n + parseCount l2 n := by
  simp [parseCount, List.filter_append]

theorem searchCount_computeEvents_self (sp : SearchPath) (fs : FileSys)
    (n : String) : searchCount (computeEvents sp fs n) n = 1 := by
  unfold computeEvents
  cases sp.search n with
  | none => simp [searchCount]
  | some pt =>
    obtain ⟨p, ty⟩ := pt
    by_cases hty : ty = DllType.umbrella
    · simp [hty, searchCount]
    · simp only [hty, if_false]
      cases lookupA fs p <;> simp [searchCount]

theorem searchCount_computeEvents_ne (sp : SearchPath) (fs : FileSys)
    {n m : String} (h : m ≠ n) :
    searchCount (computeEvents sp fs n) m = 0 := by
  unfold computeEvents
  cases sp.search n with
  | none => simp [searchCount, Ne.symm h]
  | some pt =>
    obtain ⟨p, ty⟩ := pt
    by_cases hty : ty = DllType.umbrella
    · simp [hty, searchCount, Ne.symm h]
    · simp only [hty, if_false]
      cases lookupA fs p <;> simp [searchCount, Ne.symm h]

theorem parseCount_computeEvents_le (sp : SearchPath) (fs : FileSys)
    (n : String) : parseCount (computeEvents sp fs n) n ≤ 1 := by
  unfold computeEvents
  cases sp.search n with
  | none => simp [parseCount]
  | some pt =>
    obtain ⟨p, ty⟩ := pt
    by_cases hty : ty = DllType.umbrella
    · simp [hty, parseCount]
    · simp only [hty, if_false]
      cases lookupA fs p <;> simp [parseCount]

theorem parseCount_computeEvents_ne (sp : SearchPath) (fs : FileSys)
    {n m : String} (h : m ≠ n) :
    parseCount (computeEvents sp fs n) m = 0 := by
  unfold computeEvents
  cases sp.search n with
  | none => simp [parseCount, Ne.symm h]
  | some pt =>
    obtain ⟨p, ty⟩ := pt
    by_cases hty : ty = DllType.umbrella
    · simp [hty, parseCount, Ne.symm h]
    · simp only [hty, if_false]
      cases lookupA fs p <;> simp [parseCount, Ne.symm h]

/-! ### Claim C2 -/

/-- C2: for every module name and snapshot, `SearchPath::search` probes the
buckets in exactly the specified short-circuiting order with the fixed
per-bucket classification — stated as equality with the specification-side
ordered scan `specSearch` — and in particular a name present in both the
current and system directories (and in no earlier bucket) resolves from the
current directory as UserModule with safe search disabled and from the
system directory as SystemModule with safe search enabled. -/
theorem c2_bucket_order :
    ∀ (sp : SearchPath) (name : String),
      SearchPath.search sp name = specSearch sp name ∧
      (∀ p q : FsPath,
        lookupA sp.known_dll_files (lowerStr name) = none →
        lookupA sp.base_directory_files (lowerStr name) = none →
        lookupA sp.current_directory_files (lowerStr name) = some p →
        lookupA sp.system_directory_files (lowerStr name) = some q →
        SearchPath.search sp name =
          if sp.safe_search_enabled then some (q, DllType.system)
          else some (p, DllType.user)) := by
  intro sp name
  refine ⟨search_eq_specSearch sp name, ?_⟩
  intro p q h1 h2 h3 h4
  by_cases hs : sp.safe_search_enabled
  · simp [SearchPath.search, hs, h1, h2, h3, h4]
  · simp [SearchPath.search, hs, h1, h2, h3, h4]

/-- A snapshot holding "b.dll" in both the system and current directories,
with safe search disabled. -/
def spScenario : SearchPath :=
  ⟨false, [], [], [("b.dll", "sys-b")], [], [], [("b.dll", "cur-b")]⟩

/-- Witness for C2 at a concrete snapshot and query. -/
theorem c2_bucket_order_witness :
    (lookupA spScenario.known_dll_files (lowerStr "B.dll") = none ∧
     lookupA spScenario.base_directory_files (lowerStr "B.dll") = none ∧
     lookupA spScenario.current_directory_files (lowerStr "B.dll") = some "cur-b" ∧
     lookupA spScenario.system_directory_files (lowerStr "B.dll") = some "sys-b") ∧
    SearchPath.search spScenario "B.dll" =
      (if spScenario.safe_search_enabled then some (("sys-b" : FsPath), DllType.system)
       else some (("cur-b" : FsPath), DllType.user)) :=
  ⟨⟨by decide, by decide, by decide, by decide⟩,
   (c2_bucket_order spScenario "B.dll").2 "cur-b" "sys-b"
     (by decide) (by decide) (by decide) (by decide)⟩

/-! ### Claim C6 -/

/-- No bucket of the snapshot contains the (lowercased) name. -/
def inNoBucket (sp : SearchPath) (n : String) : Prop :=
  lookupA sp.known_dll_files n = none ∧
  lookupA sp.base_directory_files n = none ∧
  lookupA sp.system_directory_files n = none ∧
  lookupA sp.windows_directory_files n = none ∧
  lookupA sp.current_directory_files n = none ∧
  searchPathDirs sp.path_directory_files n = none

/-- C6 (amended): when no bucket contains the name, a name matching the
virtual-forwarding pattern resolves to the umbrella classification with an
empty location, a non-matching name resolves to definitive absence, and in
particular the name api-ms-win-core-sysinfo-l1-2-3.dll resolves to the
umbrella result — provided no bucket contains it (the original claim's
"independent of filesystem contents" is dropped: a bucket hit takes
precedence, see the counterexample). -/
theorem c6_virtual_fallback :
    ∀ (sp : SearchPath) (name : String),
      inNoBucket sp (lowerStr name) →
      (umbrellaIsMatch (lowerStr name) = true →
        SearchPath.search sp name = some ("", DllType.umbrella)) ∧
      (umbrellaIsMatch (lowerStr name) = false →
        SearchPath.search sp name = none) ∧
      (lowerStr name = "api-ms-win-core-sysinfo-l1-2-3.dll" →
        SearchPath.search sp name = some ("", DllType.umbrella)) := by
  intro sp name h
  obtain ⟨h1, h2, h3, h4, h5, h6⟩ := h
  have main : ∀ u : Bool, umbrellaIsMatch (lowerStr name) = u →
      SearchPath.search sp name =
        (if u then some ("", DllType.umbrella) else none) := by
    intro u hu
    by_cases hs : sp.safe_search_enabled <;>
      simp [SearchPath.search, hs, h1, h2, h3, h4, h5, h6, hu]
  refine ⟨fun hu => by simpa using main true hu,
          fun hu => by simpa using main false hu,
          fun heq => ?_⟩
  have hu : umbrellaIsMatch (lowerStr name) = true := by rw [heq]; decide
  simpa using main true hu

/-- Witness for C6: the canonical virtual module name on the empty
snapshot. -/
theorem c6_virtual_fallback_witness :
    inNoBucket spEmptyEx (lowerStr "api-ms-win-core-sysinfo-l1-2-3.dll") ∧
    SearchPath.search spEmptyEx "api-ms-win-core-sysinfo-l1-2-3.dll" =
      some ("", DllType.umbrella) :=
  ⟨⟨by decide, by decide, by decide, by decide, by decide, by decide⟩,
   (c6_virtual_fallback spEmptyEx "api-ms-win-core-sysinfo-l1-2-3.dll"
     ⟨by decide, by decide, by decide, by decide, by decide, by decide⟩).2.2
     (by decide)⟩

/-- A snapshot whose base directory contains a file named like the canonical
virtual module. -/
def spC6 : SearchPath :=
  ⟨true, [("api-ms-win-core-sysinfo-l1-2-3.dll", "base-copy")], [], [], [], [], []⟩

/-- Counterexample to C6 as stated: with the virtual-looking name present in
the base-directory bucket, resolution returns that file as UserModule, not
the empty-location VirtualModule — so the umbrella result is not independent
of filesystem contents. -/
theorem c6_not_independent_of_fs :
    SearchPath.search spC6 "api-ms-win-core-sysinfo-l1-2-3.dll" =
      some ("base-copy", DllType.user) ∧
    SearchPath.search spC6 "api-ms-win-core-sysinfo-l1-2-3.dll" ≠
      some ("", DllType.umbrella) := by
  constructor
  · decide
  · decide

/-! ### Claim C4 -/

theorem search_congr (sp : SearchPath) {a b : String}
    (h : lowerStr a = lowerStr b) :
    SearchPath.search sp a = SearchPath.search sp b := by
  unfold SearchPath.search
  rw [h]

theorem computeDllInfo_congr (sp : SearchPath) (fs : FileSys) {a b : String}
    (h : lowerStr a = lowerStr b) :
    computeDllInfo sp fs a = computeDllInfo sp fs b := by
  unfold computeDllInfo
  rw [search_congr sp h]

/-- C4 (amended): two spellings of a name differing only in letter case
resolve identically — the resolver lowercases before lookup, so both the
snapshot search and the fresh locate-and-parse computation coincide — but the
Catalog keys its entries by the name exactly as queried, so distinct
spellings occupy distinct cache entries and each triggers its own search
(the original claim's single shared lowercase-keyed entry is dropped, see the
counterexample). -/
theorem c4_case_insensitive :
    ∀ (sp : SearchPath) (fs : FileSys) (a b : String),
      lowerStr a = lowerStr b →
      SearchPath.search sp a = SearchPath.search sp b ∧
      computeDllInfo sp fs a = computeDllInfo sp fs b ∧
      (∀ (db db1 db2 : DllDatabase) (r1 r2 : Option DllInfo),
        lookupA db.files a = none →
        lookupA db.files b = none →
        search_dll sp fs db a = .ok (db1, r1) →
        search_dll sp fs db1 b = .ok (db2, r2) →
        r1 = r2 ∧ a ∈ get_all_dlls db2 ∧ b ∈ get_all_dlls db2 ∧
        (a ≠ b →
          searchCount db2.log a = searchCount db.log a + 1 ∧
          searchCount db2.log b = searchCount db.log b + 1)) := by
  intro sp fs a b h
  refine ⟨search_congr sp h, computeDllInfo_congr sp fs h, ?_⟩
  intro db db1 db2 r1 r2 ha hb hs1 hs2
  have hga : get_dll_info db a = none := get_dll_info_of_lookup_none ha
  cases hc : computeDllInfo sp fs a with
  | panic =>
    rw [search_dll_fresh_panic hga hc] at hs1
    exact absurd hs1 (by simp)
  | err => exact absurd hc (computeDllInfo_ne_err sp fs a)
  | ok info =>
    rw [search_dll_fresh_ok hga hc] at hs1
    simp only [PRes.ok.injEq, Prod.mk.injEq] at hs1
    obtain ⟨hdb1, hr1⟩ := hs1
    by_cases hab : a = b
    · subst hab
      have hgb : get_dll_info db1 a = info := by
        rw [← hdb1]
        exact get_dll_info_after_insert db.files _ a info
      cases hinfo : info with
      | some i =>
        rw [hinfo] at hgb
        rw [search_dll_cached hgb] at hs2
        simp only [PRes.ok.injEq, Prod.mk.injEq] at hs2
        obtain ⟨hdb2, hr2⟩ := hs2
        refine ⟨by rw [← hr1, ← hr2, hinfo], ?_, ?_, fun hne => absurd rfl hne⟩
        · rw [← hdb2, ← hdb1]
          exact keysA_insertA_mem db.files a info
        · rw [← hdb2, ← hdb1]
          exact keysA_insertA_mem db.files a info
      | none =>
        rw [hinfo] at hgb
        rw [search_dll_fresh_ok hgb hc] at hs2
        simp only [PRes.ok.injEq, Prod.mk.injEq] at hs2
        obtain ⟨hdb2, hr2⟩ := hs2
        refine ⟨by rw [← hr1, ← hr2, hinfo], ?_, ?_, fun hne => absurd rfl hne⟩
        · rw [← hdb2]
          exact keysA_insertA_mem db1.files a info
        · rw [← hdb2]
          exact keysA_insertA_mem db1.files a info
    · have hlb : lookupA db1.files b = none := by
        rw [← hdb1]
        show lookupA (insertA db.files a info) b = none
        rw [lookupA_insertA_ne db.files a b info (fun hh => hab hh.symm)]
        exact hb
      have hgb : get_dll_info db1 b = none := get_dll_info_of_lookup_none hlb
      have hcb : computeDllInfo sp fs b = .ok info := by
        rw [← computeDllInfo_congr sp fs h]
        exact hc
      rw [search_dll_fresh_ok hgb hcb] at hs2
      simp only [PRes.ok.injEq, Prod.mk.injEq] at hs2
      obtain ⟨hdb2, hr2⟩ := hs2
      refine ⟨by rw [← hr1, ← hr2], ?_, ?_, fun _ => ?_⟩
      · rw [← hdb2]
        show a ∈ keysA (insertA db1.files b info)
        refine keysA_insertA_sub db1.files b info a ?_
        rw [← hdb1]
        exact keysA_insertA_mem db.files a info
      · rw [← hdb2]
        exact keysA_insertA_mem db1.files b info
      · constructor
        · rw [← hdb2]
          show searchCount (db1.log ++ computeEvents sp fs b) a = _
          rw [searchCount_append, ← hdb1]
          show searchCount (db.log ++ computeEvents sp fs a) a + _ = _
          rw [searchCount_append, searchCount_computeEvents_self,
            searchCount_computeEvents_ne sp fs hab]
        · rw [← hdb2]
          show searchCount (db1.log ++ computeEvents sp fs b) b = _
          rw [searchCount_append, searchCount_computeEvents_self, ← hdb1]
          show searchCount (db.log ++ computeEvents sp fs a) b + 1 = _
          rw [searchCount_append,
            searchCount_computeEvents_ne sp fs (fun hh => hab hh.symm)]

/-- The database after resolving the failing name spelled "A.DLL" once. -/
def c4db1 : DllDatabase := ⟨[("A.DLL", none)], [.searchEv "A.DLL"]⟩

/-- The database after additionally resolving the spelling "a.dll". -/
def c4dbFinal : DllDatabase :=
  ⟨[("A.DLL", none), ("a.dll", none)],
   [.searchEv "A.DLL", .searchEv "a.dll"]⟩

/-- Counterexample to C4 as stated: resolving the two case-variant spellings
"A.DLL" and "a.dll" leaves two distinct catalog entries (keyed by the names
as given, not a shared lowercased key) and the second spelling triggers its
own resolver invocation, so the pair does not share a single cache entry with
at most one search between them. -/
theorem c4_separate_cache_entries :
    search_dll spEmptyEx [] DllDatabase.empty "A.DLL" = .ok (c4db1, none) ∧
    search_dll spEmptyEx [] c4db1 "a.dll" = .ok (c4dbFinal, none) ∧
    get_all_dlls c4dbFinal = ["A.DLL", "a.dll"] ∧
    searchCount c4dbFinal.log "A.DLL" = 1 ∧
    searchCount c4dbFinal.log "a.dll" = 1 := by
  refine ⟨by decide, by decide, by decide, by decide, by decide⟩

/-- Witness for C4 at the concrete spelling pair. -/
theorem c4_case_insensitive_witness :
    (lowerStr "A.DLL" = lowerStr "a.dll" ∧
     lookupA DllDatabase.empty.files "A.DLL" = none ∧
     lookupA DllDatabase.empty.files "a.dll" = none ∧
     search_dll spEmptyEx [] DllDatabase.empty "A.DLL" = .ok (c4db1, none) ∧
     search_dll spEmptyEx [] c4db1 "a.dll" = .ok (c4dbFinal, none)) ∧
    ((none : Option DllInfo) = none ∧
     "A.DLL" ∈ get_all_dlls c4dbFinal ∧ "a.dll" ∈ get_all_dlls c4dbFinal ∧
     ("A.DLL" ≠ "a.dll" →
       searchCount c4dbFinal.log "A.DLL" =
         searchCount DllDatabase.empty.log "A.DLL" + 1 ∧
       searchCount c4dbFinal.log "a.dll" =
         searchCount DllDatabase.empty.log "a.dll" + 1)) :=
  ⟨⟨by decide, by decide, by decide, by decide, by decide⟩,
   (c4_case_insensitive spEmptyEx [] "A.DLL" "a.dll" (by decide)).2.2
     DllDatabase.empty c4db1 c4dbFinal none none
     (by decide) (by decide) (by decide) (by decide)⟩

/-! ### Claim C5 -/

/-- C5 (amended): a failed read of the safe-search flag degrades to
safe-search-enabled and construction proceeds, but a failed read of the
always-trusted-module list does not degrade to an empty set: it propagates
and snapshot construction fails (the original claim's successful
construction in that case is dropped, see the counterexample). -/
theorem c5_degradation :
    (∀ c : SnapshotInputs,
      c.safeSearchDword = .error () → readSafeSearchEnabled c = true) ∧
    (∀ (c : SnapshotInputs) (base cur : FsPath) (sp : SearchPath),
      SearchPath.new c base cur = .ok sp →
      sp.safe_search_enabled = readSafeSearchEnabled c) ∧
    (∀ (c : SnapshotInputs) (base cur sd wd : FsPath) (kn : List String)
        (bf sf wf cf : List (String × FsPath)),
      c.safeSearchDword = .error () →
      c.systemDir = .ok sd →
      c.knownValueNames = .ok kn →
      c.windowsDir = .ok wd →
      c.readDir base = .ok bf →
      c.readDir sd = .ok sf →
      c.readDir wd = .ok wf →
      c.readDir cur = .ok cf →
      SearchPath.new c base cur = .ok
        ⟨true, bf,
         ((kn.filterMap (fun v => (c.knownReadString v).toOption)).map
           lowerStr).map (fun n => (n, pjoin sd n)),
         sf, wf,
         c.pathDirs.filterMap (fun d => (c.readDir d).toOption), cf⟩) ∧
    (∀ (c : SnapshotInputs) (base cur : FsPath),
      c.knownValueNames = .error () →
      SearchPath.new c base cur = .error ()) := by
  refine ⟨?_, ?_, ?_, ?_⟩
  · intro c hflag
    simp [readSafeSearchEnabled, hflag]
  · intro c base cur sp h
    unfold SearchPath.new at h
    cases h1 : c.systemDir with
    | error e => simp [h1] at h
    | ok sd =>
      simp only [h1] at h
      cases h2 : get_knwon_dll_files c with
      | error e => simp [h2] at h
      | ok kn =>
        simp only [h2] at h
        cases h3 : c.readDir base with
        | error e => simp [h3] at h
        | ok bf =>
          simp only [h3] at h
          cases h4 : c.readDir sd with
          | error e => simp [h4] at h
          | ok sf =>
            simp only [h4] at h
            cases h5 : c.windowsDir with
            | error e => simp [h5] at h
            | ok wd =>
              simp only [h5] at h
              cases h6 : c.readDir wd with
              | error e => simp [h6] at h
              | ok wf =>
                simp only [h6] at h
                cases h7 : c.readDir cur with
                | error e => simp [h7] at h
                | ok cf =>
                  simp only [h7, Except.ok.injEq] at h
                  rw [← h]
  · intro c base cur sd wd kn bf sf wf cf hflag h1 h2 h3 h4 h5 h6 h7
    have hsafe : readSafeSearchEnabled c = true := by
      simp [readSafeSearchEnabled, hflag]
    simp only [SearchPath.new, get_knwon_dll_files, h1, h2, h3, h4, h5, h6,
      h7, hsafe]
  · intro c base cur hk
    cases h1 : c.systemDir with
    | error e => simp [SearchPath.new, h1]
    | ok sd => simp [SearchPath.new, get_knwon_dll_files, h1, hk]

/-- Collaborator results where only the trusted-module enumeration fails. -/
def c5KnownErr : SnapshotInputs :=
  ⟨.ok 1, .error (), fun _ => .error (), .ok "sys", .ok "win",
   fun _ => .ok [], []⟩

/-- Counterexample to C5 as stated: with every mandatory directory readable
but the always-trusted-module enumeration failing, snapshot construction
aborts with an error instead of degrading to an empty trusted set. -/
theorem c5_construction_aborts :
    c5KnownErr.knownValueNames = .error () ∧
    c5KnownErr.systemDir = .ok "sys" ∧
    c5KnownErr.readDir "base" = .ok [] ∧
    c5KnownErr.readDir "sys" = .ok [] ∧
    c5KnownErr.readDir "win" = .ok [] ∧
    c5KnownErr.readDir "cur" = .ok [] ∧
    SearchPath.new c5KnownErr "base" "cur" = .error () := by
  refine ⟨rfl, rfl, rfl, rfl, rfl, rfl, rfl⟩

/-- Collaborator results where only the safe-search flag read fails. -/
def c5FlagErr : SnapshotInputs :=
  ⟨.error (), .ok [], fun _ => .error (), .ok "sys", .ok "win",
   fun _ => .ok [], []⟩

/-- Witness for C5: with the flag read failing and everything else readable,
construction succeeds with safe search enabled. -/
theorem c5_degradation_witness :
    (c5FlagErr.safeSearchDword = .error () ∧
     c5FlagErr.systemDir = .ok "sys" ∧
     c5FlagErr.knownValueNames = .ok [] ∧
     c5FlagErr.windowsDir = .ok "win" ∧
     c5FlagErr.readDir "base" = .ok [] ∧
     c5FlagErr.readDir "sys" = .ok [] ∧
     c5FlagErr.readDir "win" = .ok [] ∧
     c5FlagErr.readDir "cur" = .ok []) ∧
    SearchPath.new c5FlagErr "base" "cur" =
      .ok ⟨true, [], [], [], [], [], []⟩ :=
  ⟨⟨rfl, rfl, rfl, rfl, rfl, rfl, rfl, rfl⟩,
   c5_degradation.2.2.1 c5FlagErr "base" "cur" "sys" "win" [] [] [] [] []
     rfl rfl rfl rfl rfl rfl rfl rfl⟩

/-! ### Claim C1 -/

/-- C1 (amended): a successfully resolved name is memoized — a further
resolve returns the identical cached result with the database unchanged, so
neither the search-path resolver nor the parser is invoked again — while a
name with no successful entry (absent, or recorded as a failed `None`
sentinel) is recomputed: the failure is recorded under the name, but a later
resolve re-invokes the resolver (the original claim's no-retry-after-failure
is dropped, see the counterexample). -/
theorem c1_memoization :
    ∀ (sp : SearchPath) (fs : FileSys) (db : DllDatabase) (name : String),
      (∀ info : DllInfo, get_dll_info db name = some info →
        search_dll sp fs db name = .ok (db, some info)) ∧
      (get_dll_info db name = none →
        ∀ (db' : DllDatabase) (r : Option DllInfo),
          search_dll sp fs db name = .ok (db', r) →
          lookupA db'.files name = some r ∧
          searchCount db'.log name = searchCount db.log name + 1) := by
  intro sp fs db name
  refine ⟨fun info h => search_dll_cached h, ?_⟩
  intro hnone db' r hs
  cases hc : computeDllInfo sp fs name with
  | panic =>
    rw [search_dll_fresh_panic hnone hc] at hs
    exact absurd hs (by simp)
  | err => exact absurd hc (computeDllInfo_ne_err sp fs name)
  | ok info =>
    rw [search_dll_fresh_ok hnone hc] at hs
    simp only [PRes.ok.injEq, Prod.mk.injEq] at hs
    obtain ⟨hdb, hr⟩ := hs
    constructor
    · rw [← hdb, ← hr]
      exact lookupA_insertA_self db.files name info
    · rw [← hdb]
      show searchCount (db.log ++ computeEvents sp fs name) name = _
      rw [searchCount_append, searchCount_computeEvents_self]

/-- A cached successful entry used by the C1 witness. -/
def c1Info : DllInfo := ⟨"", .umbrella, File.new⟩

/-- A database holding one successful entry. -/
def c1dbS : DllDatabase := ⟨[("cached.dll", some c1Info)], []⟩

/-- Witness for C1: resolving a cached successful name returns the identical
result with the database (hence the ghost log) unchanged, and resolving an
uncached name records it with one more resolver invocation. -/
theorem c1_memoization_witness :
    (get_dll_info c1dbS "cached.dll" = some c1Info ∧
     search_dll spEmptyEx [] c1dbS "cached.dll" = .ok (c1dbS, some c1Info)) ∧
    (get_dll_info c1dbS "nope.dll" = none ∧
     search_dll spEmptyEx [] c1dbS "nope.dll" =
       .ok (⟨[("cached.dll", some c1Info), ("nope.dll", none)],
             [.searchEv "nope.dll"]⟩, none) ∧
     lookupA (⟨[("cached.dll", some c1Info), ("nope.dll", none)],
       [.searchEv "nope.dll"]⟩ : DllDatabase).files "nope.dll" =
         some (none : Option DllInfo) ∧
     searchCount [Event.searchEv "nope.dll"] "nope.dll" =
       searchCount c1dbS.log "nope.dll" + 1) :=
  ⟨⟨by decide,
    (c1_memoization spEmptyEx [] c1dbS "cached.dll").1 c1Info (by decide)⟩,
   ⟨by decide, by decide,
    ((c1_memoization spEmptyEx [] c1dbS "nope.dll").2 (by decide)
      ⟨[("cached.dll", some c1Info), ("nope.dll", none)],
       [.searchEv "nope.dll"]⟩ none (by decide)).1,
    ((c1_memoization spEmptyEx [] c1dbS "nope.dll").2 (by decide)
      ⟨[("cached.dll", some c1Info), ("nope.dll", none)],
       [.searchEv "nope.dll"]⟩ none (by decide)).2⟩⟩

/-- The database after one failed resolution of "nope.dll". -/
def c1db1 : DllDatabase := ⟨[("nope.dll", none)], [.searchEv "nope.dll"]⟩

/-- The database after a second resolution of the same failed name. -/
def c1db2 : DllDatabase :=
  ⟨[("nope.dll", none)], [.searchEv "nope.dll", .searchEv "nope.dll"]⟩

/-- Counterexample to C1 as stated: after a failed resolution records the
`None` sentinel, resolving the same name again re-invokes the search-path
resolver (a second search event is logged), so the failed lookup is
re-attempted rather than served from the cache. -/
theorem c1_failed_lookup_retried :
    search_dll spEmptyEx [] DllDatabase.empty "nope.dll" = .ok (c1db1, none) ∧
    search_dll spEmptyEx [] c1db1 "nope.dll" = .ok (c1db2, none) ∧
    searchCount c1db2.log "nope.dll" = 2 := by
  refine ⟨by decide, by decide, by decide⟩

/-! ### Claim C8 -/

/-- The specification's half-open virtual range membership (§3): purely
mathematical, no wrap-around. -/
def inVirtualRange (s : Section) (a : Nat) : Prop :=
  s.virtual_address ≤ a ∧ a < s.virtual_address + s.virtual_size

instance (s : Section) (a : Nat) : Decidable (inVirtualRange s a) := by
  unfold inVirtualRange
  infer_instance

theorem guard_imp_inVirtualRange {s : Section} {a : Nat}
    (h : s.virtual_address ≤ a ∧ a < wadd s.virtual_address s.virtual_size) :
    inVirtualRange s a := by
  refine ⟨h.1, lt_of_lt_of_le h.2 ?_⟩
  exact Nat.mod_le _ _

theorem sectionsScan_none (l : List Section) (a : Nat)
    (h : ∀ s ∈ l, ¬ inVirtualRange s a) : sectionsScan l a = none := by
  induction l with
  | nil => rfl
  | cons s t ih =>
    have hs : ¬ (s.virtual_address ≤ a ∧ a < wadd s.virtual_address s.virtual_size) :=
      fun hg => h s (List.mem_cons_self s t) (guard_imp_inVirtualRange hg)
    simp only [sectionsScan, if_neg hs]
    exact ih (fun s' hs' => h s' (List.mem_cons_of_mem s hs'))

theorem sectionsScan_first (pre : List Section) (s : Section)
    (post : List Section) (a : Nat)
    (hpre : ∀ s' ∈ pre, ¬ inVirtualRange s' a)
    (hin : inVirtualRange s a)
    (ha : a < u32Mod)
    (hraw : s.raw_data_address < u32Mod)
    (hvs : s.virtual_address + s.virtual_size < u32Mod)
    (hres : s.raw_data_address + (a - s.virtual_address) < u32Mod) :
    sectionsScan (pre ++ s :: post) a =
      some (s.raw_data_address + (a - s.virtual_address)) := by
  induction pre with
  | nil =>
    obtain ⟨h1, h2⟩ := hin
    have hguard : s.virtual_address ≤ a ∧ a < wadd s.virtual_address s.virtual_size := by
      refine ⟨h1, ?_⟩
      rw [wadd, Nat.mod_eq_of_lt hvs]
      exact h2
    simp only [List.nil_append, sectionsScan, if_pos hguard, Option.some.injEq]
    simp only [wadd, wsub, u32Mod] at *
    omega
  | cons s' t ih =>
    have hs' : ¬ (s'.virtual_address ≤ a ∧ a < wadd s'.virtual_address s'.virtual_size) :=
      fun hg => hpre s' (List.mem_cons_self s' t) (guard_imp_inVirtualRange hg)
    simp only [List.cons_append, sectionsScan, if_neg hs']
    exact ih (fun x hx => hpre x (List.mem_cons_of_mem s' hx))

/-- C8 (amended): an address lying in no section's half-open virtual range
always fails to translate; an address inside the range of the first matching
section in list order translates to raw_address + (a − virtual_address),
provided the section's bounds and the computed offset stay below 2^32 (the
source does wrapping u32 arithmetic, so a section whose virtual range
overflows is skipped by the wrapped bound check — see the counterexample —
and the returned offset is only the mathematical value when it fits). -/
theorem c8_rva_translation :
    ∀ (t : SectionTable) (a : Nat),
      ((∀ s ∈ t.sections, ¬ inVirtualRange s a) →
        t.rva_to_file_offset a = none) ∧
      (∀ (pre : List Section) (s : Section) (post : List Section),
        t.sections = pre ++ s :: post →
        (∀ s' ∈ pre, ¬ inVirtualRange s' a) →
        inVirtualRange s a →
        a < u32Mod →
        s.raw_data_address < u32Mod →
        s.virtual_address + s.virtual_size < u32Mod →
        s.raw_data_address + (a - s.virtual_address) < u32Mod →
        t.rva_to_file_offset a =
          some (s.raw_data_address + (a - s.virtual_address))) := by
  intro t a
  constructor
  · intro h
    exact sectionsScan_none t.sections a h
  · intro pre s post heq hpre hin ha hraw hvs hres
    show sectionsScan t.sections a = _
    rw [heq]
    exact sectionsScan_first pre s post a hpre hin ha hraw hvs hres

/-- The two sections of the specification's testable translation property. -/
def c8Table : SectionTable :=
  ⟨[⟨"", 0x100, 0x1000, 0x100, 0x500⟩, ⟨"", 0x100, 0x2000, 0x100, 0x800⟩]⟩

/-- Witness for C8 at the specification's own test vector. -/
theorem c8_rva_translation_witness :
    (c8Table.sections =
      [] ++ (⟨"", 0x100, 0x1000, 0x100, 0x500⟩ : Section) ::
        [⟨"", 0x100, 0x2000, 0x100, 0x800⟩] ∧
     (∀ s' ∈ ([] : List Section), ¬ inVirtualRange s' 0x1010) ∧
     inVirtualRange ⟨"", 0x100, 0x1000, 0x100, 0x500⟩ 0x1010) ∧
    c8Table.rva_to_file_offset 0x1010 = some 0x510 :=
  ⟨⟨rfl, by simp, by decide⟩,
   (c8_rva_translation c8Table 0x1010).2 []
     ⟨"", 0x100, 0x1000, 0x100, 0x500⟩ [⟨"", 0x100, 0x2000, 0x100, 0x800⟩]
     rfl (by simp) (by decide) (by decide) (by decide) (by decide) (by decide)⟩

/-- A section whose virtual range wraps past 2^32. -/
def c8WrapSec : Section := ⟨"", 2, 4294967294, 0, 7⟩

/-- Counterexample to C8 as stated: the address 0xFFFFFFFF lies inside this
section's half-open virtual range, yet the wrapped u32 bound check makes the
translation fail instead of returning raw + (a − va) = 8. -/
theorem c8_overflow_counterexample :
    inVirtualRange c8WrapSec 4294967295 ∧
    SectionTable.rva_to_file_offset ⟨[c8WrapSec]⟩ 4294967295 = none ∧
    SectionTable.rva_to_file_offset ⟨[c8WrapSec]⟩ 4294967295 ≠
      some (c8WrapSec.raw_data_address +
        (4294967295 - c8WrapSec.virtual_address)) := by
  refine ⟨by decide, by decide, by decide⟩

/-! ### Claim C9 -/

theorem le_u32_le32bytes (v : Nat) (rest : List Nat) :
    le_u32 (le32bytes v ++ rest) = some (rest, v % u32Mod) := by
  simp only [le32bytes, List.cons_append, List.nil_append, le_u32,
    Option.some.injEq, Prod.mk.injEq, u32Mod, true_and]
  omega

theorem read20_encode (a b c d e : Nat) (rest : List Nat) :
    read20 (encodeIDTEntry a b c d e ++ rest) =
      some (rest, (a % u32Mod, b % u32Mod, c % u32Mod, d % u32Mod, e % u32Mod)) := by
  simp [read20, encodeIDTEntry, List.append_assoc, le_u32_le32bytes]

theorem read20_encode_last (a b c d e : Nat) :
    read20 (encodeIDTEntry a b c d e) =
      some ([], (a % u32Mod, b % u32Mod, c % u32Mod, d % u32Mod, e % u32Mod)) := by
  have h := read20_encode a b c d e []
  simpa using h

theorem encodeIDTEntry_length (a b c d e : Nat) :
    (encodeIDTEntry a b c d e).length = 20 := by
  simp [encodeIDTEntry, le32bytes]

/-- C9: a byte stream of two 20-byte import directory records with nonzero
first fields followed by an all-zero record parses to exactly the two
records in order (keeping the lookup-table and name addresses); the
terminator is consumed but not materialized. -/
theorem c9_directory_table :
    ∀ a1 b1 c1 d1 e1 a2 b2 c2 d2 e2 : Nat,
      a1 < u32Mod → d1 < u32Mod → a2 < u32Mod → d2 < u32Mod →
      a1 ≠ 0 → a2 ≠ 0 →
      parseImportDirectoryTable
        (encodeIDTEntry a1 b1 c1 d1 e1 ++
          (encodeIDTEntry a2 b2 c2 d2 e2 ++ encodeIDTEntry 0 0 0 0 0)) =
        some ([], [⟨a1, d1⟩, ⟨a2, d2⟩]) := by
  intro a1 b1 c1 d1 e1 a2 b2 c2 d2 e2 ha1 hd1 ha2 hd2 hz1 hz2
  have hlen : (encodeIDTEntry a1 b1 c1 d1 e1 ++
      (encodeIDTEntry a2 b2 c2 d2 e2 ++ encodeIDTEntry 0 0 0 0 0)).length = 60 := by
    simp [List.length_append, encodeIDTEntry_length]
  unfold parseImportDirectoryTable
  rw [hlen]
  show parseIDTFuel 4 _ = _
  simp [parseIDTFuel, read20_encode, read20_encode_last,
    Nat.mod_eq_of_lt ha1, Nat.mod_eq_of_lt hd1, Nat.mod_eq_of_lt ha2,
    Nat.mod_eq_of_lt hd2, hz1, hz2]

/-- Witness for C9 at the repository's own import-table test vector. -/
theorem c9_directory_table_witness :
    ((0x03020100 : Nat) < u32Mod ∧ (0x03020100 : Nat) ≠ 0 ∧
     (0x17161514 : Nat) ≠ 0) ∧
    parseImportDirectoryTable
      (encodeIDTEntry 0x03020100 0x07060504 0x0b0a0908 0x0f0e0d0c 0x13121110 ++
        (encodeIDTEntry 0x17161514 0x1b1a1918 0x1f1e1d1c 0x23222120 0x27262524 ++
          encodeIDTEntry 0 0 0 0 0)) =
      some ([], [⟨0x03020100, 0x0f0e0d0c⟩, ⟨0x17161514, 0x23222120⟩]) :=
  ⟨⟨by decide, by decide, by decide⟩,
   c9_directory_table 0x03020100 0x07060504 0x0b0a0908 0x0f0e0d0c 0x13121110
     0x17161514 0x1b1a1918 0x1f1e1d1c 0x23222120 0x27262524
     (by decide) (by decide) (by decide) (by decide) (by decide) (by decide)⟩

/-! ### Claim C10 -/

theorem get_dll_info_some_lookup {db : DllDatabase} {n : String}
    {info : DllInfo} (h : get_dll_info db n = some info) :
    lookupA db.files n = some (some info) := by
  unfold get_dll_info at h
  cases hl : lookupA db.files n with
  | none => rw [hl] at h; simp at h
  | some o =>
    cases o with
    | none => rw [hl] at h; simp at h
    | some i =>
      rw [hl] at h
      simp only [Option.some.injEq] at h
      rw [h]

theorem search_dll_keys {sp : SearchPath} {fs : FileSys} {db db' : DllDatabase}
    {n : String} {r : Option DllInfo}
    (h : search_dll sp fs db n = .ok (db', r)) :
    n ∈ get_all_dlls db' ∧ ∀ m ∈ get_all_dlls db, m ∈ get_all_dlls db' := by
  by_cases hg : (get_dll_info db n).isNone
  · rw [Option.isNone_iff_eq_none] at hg
    cases hc : computeDllInfo sp fs n with
    | panic => rw [search_dll_fresh_panic hg hc] at h; exact absurd h (by simp)
    | err => exact absurd hc (computeDllInfo_ne_err sp fs n)
    | ok info =>
      rw [search_dll_fresh_ok hg hc] at h
      simp only [PRes.ok.injEq, Prod.mk.injEq] at h
      obtain ⟨hdb, _⟩ := h
      rw [← hdb]
      exact ⟨keysA_insertA_mem db.files n info,
        fun m hm => keysA_insertA_sub db.files n info m hm⟩
  · have hsome : ∃ info, get_dll_info db n = some info := by
      cases hx : get_dll_info db n with
      | none => rw [hx] at hg; simp at hg
      | some i => exact ⟨i, rfl⟩
    obtain ⟨info, hinfo⟩ := hsome
    rw [search_dll_cached hinfo] at h
    simp only [PRes.ok.injEq, Prod.mk.injEq] at h
    obtain ⟨hdb, _⟩ := h
    rw [← hdb]
    exact ⟨lookupA_some_mem_keys (get_dll_info_some_lookup hinfo),
      fun m hm => hm⟩

/-- A sequence of catalog queries run left to right, stopping on a panic. -/
def runQueries (sp : SearchPath) (fs : FileSys) :
    DllDatabase → List String → PRes DllDatabase
  | db, [] => .ok db
  | db, q :: rest =>
    match search_dll sp fs db q with
    | .panic => .panic
    | .err => .err
    | .ok (db', _) => runQueries sp fs db' rest

/-- C10: after any completed sequence of catalog queries, the catalog holds
an entry for every queried name (successful or failed) and never drops a
key, so the flat enumeration `get_all_dlls` lists every name ever
queried. -/
theorem c10_catalog_enumeration :
    ∀ (sp : SearchPath) (fs : FileSys) (qs : List String)
      (db fin : DllDatabase),
      runQueries sp fs db qs = .ok fin →
      (∀ n ∈ qs, n ∈ get_all_dlls fin) ∧
      (∀ m ∈ get_all_dlls db, m ∈ get_all_dlls fin) := by
  intro sp fs qs
  induction qs with
  | nil =>
    intro db fin h
    simp only [runQueries, PRes.ok.injEq] at h
    rw [← h]
    exact ⟨by simp, fun m hm => hm⟩
  | cons q rest ih =>
    intro db fin h
    simp only [runQueries] at h
    cases hs : search_dll sp fs db q with
    | panic => rw [hs] at h; simp at h
    | err => rw [hs] at h; simp at h
    | ok p =>
      obtain ⟨db', r⟩ := p
      rw [hs] at h
      obtain ⟨hrest1, hrest2⟩ := ih db' fin h
      obtain ⟨hk1, hk2⟩ := search_dll_keys hs
      refine ⟨?_, fun m hm => hrest2 m (hk2 m hm)⟩
      intro n hn
      rcases List.mem_cons.mp hn with hn | hn
      · rw [hn]
        exact hrest2 q hk1
      · exact hrest1 n hn

/-- The catalog after querying the unresolvable name "gone.dll" once. -/
def c10fin : DllDatabase := ⟨[("gone.dll", none)], [.searchEv "gone.dll"]⟩

/-- Witness for C10: one failed query leaves its name enumerable. -/
theorem c10_catalog_enumeration_witness :
    runQueries spEmptyEx [] DllDatabase.empty ["gone.dll"] = .ok c10fin ∧
    "gone.dll" ∈ get_all_dlls c10fin :=
  ⟨by decide,
   (c10_catalog_enumeration spEmptyEx [] ["gone.dll"] DllDatabase.empty c10fin
     (by decide)).1 "gone.dll" (by decide)⟩

/-! ### Claim C3 -/

/-- A 64-byte file whose legacy-header offset field points far past the end
of the data. -/
def c3BadInput : List Nat := List.replicate 60 0 ++ [255, 255, 255, 255]

/-- C3 (divergence witness): on a 64-byte input whose structural-header
offset is 0xFFFFFFFF, the parser model reaches the unchecked slice
expression data(pe_offset..) of file.rs and panics instead of returning a
structural parse error, contradicting the never-panics contract. -/
theorem c3_parse_panics_on_bad_offset :
    File.parse c3BadInput = .panic ∧ c3BadInput.length = 64 := by
  exact ⟨by decide, by decide⟩

/-! ### Claim C7: the walk terminates

The termination argument: every name ever pushed is an import of some file
of the (finite) filesystem snapshot, so the universe of names in play is
`root` plus all imports of all files; each loop iteration either pops an
already-seen name (then either pushes nothing and shortens the work list, or
pushes unseen names whose top is consumed by the very next iteration, which
grows the seen-set), or pops an unseen name and grows the seen-set. -/

/-- The import names a byte blob contributes when it parses. -/
def importsOf (data : List Nat) : List String :=
  match File.parse data with
  | .ok f => f.imports.map ImportedDll.name
  | _ => []

/-- All import names of all files of the snapshot. -/
def allImports (fs : FileSys) : List String :=
  fs.foldr (fun p acc => importsOf p.2 ++ acc) []

theorem mem_allImports {fs : FileSys} {p : String × List Nat} (hp : p ∈ fs)
    {x : String} (hx : x ∈ importsOf p.2) : x ∈ allImports fs := by
  induction fs with
  | nil => simp at hp
  | cons q t ih =>
    rcases List.mem_cons.mp hp with hq | hq
    · subst hq
      exact List.mem_append_left _ hx
    · exact List.mem_append_right _ (ih hq)

theorem parse_dll_imports {fs : FileSys} {p : FsPath} {ty : DllType}
    {info : DllInfo} (h : parse_dll fs p ty = .ok (some info)) :
    ∀ m ∈ info.file.imports.map ImportedDll.name, m ∈ allImports fs := by
  unfold parse_dll at h
  split at h
  · simp only [PRes.ok.injEq, Option.some.injEq] at h
    intro m hm
    rw [← h] at hm
    simp [File.new] at hm
  · split at h
    · simp at h
    · next data hread =>
      split at h
      · next f hparse =>
        simp only [PRes.ok.injEq, Option.some.injEq] at h
        intro m hm
        refine mem_allImports (lookupA_mem hread) ?_
        show m ∈ importsOf data
        unfold importsOf
        rw [hparse]
        rw [← h] at hm
        exact hm
      · simp at h
      · simp at h

theorem computeDllInfo_ok_imports {sp : SearchPath} {fs : FileSys}
    {name : String} {info : DllInfo}
    (h : computeDllInfo sp fs name = .ok (some info)) :
    ∀ m ∈ info.file.imports.map ImportedDll.name, m ∈ allImports fs := by
  unfold computeDllInfo at h
  split at h
  · exact parse_dll_imports h
  · simp at h

/-- Every successful catalog entry has all its imports inside `U`. -/
def dbInv (U : List String) (db : DllDatabase) : Prop :=
  ∀ (n : String) (info : DllInfo), lookupA db.files n = some (some info) →
    ∀ m ∈ info.file.imports.map ImportedDll.name, m ∈ U

theorem search_dll_inv {sp : SearchPath} {fs : FileSys} {U : List String}
    {db db' : DllDatabase} {n : String} {r : Option DllInfo}
    (hU : ∀ x ∈ allImports fs, x ∈ U)
    (hdb : dbInv U db) (h : search_dll sp fs db n = .ok (db', r)) :
    dbInv U db' ∧
      (∀ info, r = some info →
        ∀ m ∈ info.file.imports.map ImportedDll.name, m ∈ U) := by
  by_cases hg : (get_dll_info db n).isNone
  · rw [Option.isNone_iff_eq_none] at hg
    cases hc : computeDllInfo sp fs n with
    | panic => rw [search_dll_fresh_panic hg hc] at h; exact absurd h (by simp)
    | err => exact absurd hc (computeDllInfo_ne_err sp fs n)
    | ok info0 =>
      rw [search_dll_fresh_ok hg hc] at h
      simp only [PRes.ok.injEq, Prod.mk.injEq] at h
      obtain ⟨hdb', hr⟩ := h
      have hinfo0 : ∀ i, info0 = some i →
          ∀ m ∈ i.file.imports.map ImportedDll.name, m ∈ U := by
        intro i hi m hm
        rw [hi] at hc
        exact hU m (computeDllInfo_ok_imports hc m hm)
      constructor
      · intro n' info hl m hm
        rw [← hdb'] at hl
        by_cases hnn : n' = n
        · subst hnn
          rw [lookupA_insertA_self] at hl
          simp only [Option.some.injEq] at hl
          exact hinfo0 info hl m hm
        · rw [lookupA_insertA_ne db.files n n' info0 hnn] at hl
          exact hdb n' info hl m hm
      · intro info hi m hm
        exact hinfo0 info (hr.trans hi) m hm
  · have hsome : ∃ info, get_dll_info db n = some info := by
      cases hx : get_dll_info db n with
      | none => rw [hx] at hg; simp at hg
      | some i => exact ⟨i, rfl⟩
    obtain ⟨info, hinfo⟩ := hsome
    rw [search_dll_cached hinfo] at h
    simp only [PRes.ok.injEq, Prod.mk.injEq] at h
    obtain ⟨hdb', hr⟩ := h
    constructor
    · rw [← hdb']; exact hdb
    · intro i hi m hm
      have hii : info = i := by
        have := hr.trans hi
        simpa using this
      refine hdb n i ?_ m hm
      rw [← hii]
      exact get_dll_info_some_lookup hinfo

/-- How many universe names are not yet in the seen-set. -/
def unvCount (U : List String) (v : List String) : Nat :=
  (U.filter (fun x => decide (x ∉ v))).length

theorem filter_length_mono {α : Type} {p q : α → Bool}
    (himp : ∀ x, q x = true → p x = true) :
    ∀ l : List α, (l.filter q).length ≤ (l.filter p).length := by
  intro l
  induction l with
  | nil => simp
  | cons a t ih =>
    by_cases hq : q a = true
    · rw [List.filter_cons_of_pos hq, List.filter_cons_of_pos (himp a hq)]
      simpa using ih
    · rw [List.filter_cons_of_neg hq]
      by_cases hp : p a = true
      · rw [List.filter_cons_of_pos hp]
        exact le_trans ih (Nat.le_succ _)
      · rw [List.filter_cons_of_neg hp]
        exact ih

theorem filter_length_lt {α : Type} {p q : α → Bool} {l : List α}
    (himp : ∀ x, q x = true → p x = true) {x : α} (hx : x ∈ l)
    (hp : p x = true) (hq : q x = false) :
    (l.filter q).length < (l.filter p).length := by
  induction l with
  | nil => simp at hx
  | cons a t ih =>
    rcases List.mem_cons.mp hx with hxa | hxt
    · subst hxa
      rw [List.filter_cons_of_pos hp, List.filter_cons_of_neg (by simp [hq])]
      have := filter_length_mono himp t
      simp only [List.length_cons]
      omega
    · by_cases hqa : q a = true
      · rw [List.filter_cons_of_pos hqa, List.filter_cons_of_pos (himp a hqa)]
        have := ih hxt
        simp only [List.length_cons]
        omega
      · rw [List.filter_cons_of_neg hqa]
        by_cases hpa : p a = true
        · rw [List.filter_cons_of_pos hpa]
          have := ih hxt
          simp only [List.length_cons]
          omega
        · rw [List.filter_cons_of_neg hpa]
          exact ih hxt

theorem unvCount_cons_lt {U v : List String} {x : String}
    (hxU : x ∈ U) (hxv : x ∉ v) :
    unvCount U (x :: v) < unvCount U v := by
  refine filter_length_lt ?_ hxU ?_ ?_
  · intro y hy
    simp only [decide_eq_true_eq] at hy ⊢
    intro hyv
    exact hy (List.mem_cons_of_mem x hyv)
  · simpa using hxv
  · simp

theorem insertSet_of_mem {v : List String} {x : String} (h : x ∈ v) :
    insertSet v x = v := by
  simp [insertSet, h]

theorem insertSet_of_not_mem {v : List String} {x : String} (h : x ∉ v) :
    insertSet v x = x :: v := by
  simp [insertSet, h]

theorem mem_pushList_not_visited {v : List String} {i? : Option DllInfo}
    {m : String} (h : m ∈ pushList v i?) : m ∉ v := by
  cases i? with
  | none => simp [pushList] at h
  | some info =>
    simp only [pushList, List.mem_filter, decide_eq_true_eq] at h
    exact h.2

theorem mem_pushList_imports {v : List String} {info : DllInfo} {m : String}
    (h : m ∈ pushList v (some info)) :
    m ∈ info.file.imports.map ImportedDll.name := by
  simp only [pushList, List.mem_filter] at h
  exact h.1

theorem walkFuel_ok_step {sp : SearchPath} {fs : FileSys} {db db' : DllDatabase}
    {name : String} {i? : Option DllInfo}
    (hs : search_dll sp fs db name = .ok (db', i?))
    (v rest : List String) (n : Nat) :
    walkFuel sp fs (n + 1) ⟨db, v, name :: rest⟩ =
      walkFuel sp fs n ⟨db', insertSet v name, (pushList v i?).reverse ++ rest⟩ := by
  simp [walkFuel, hs]

/-- The walk finishes from this state with enough fuel. -/
def Terminates (sp : SearchPath) (fs : FileSys) (S : WalkState) : Prop :=
  ∃ n r, walkFuel sp fs n S = some r

theorem terminates_step_ok {sp : SearchPath} {fs : FileSys}
    {db db' : DllDatabase} {v rest : List String} {name : String}
    {i? : Option DllInfo}
    (hs : search_dll sp fs db name = .ok (db', i?))
    (h : Terminates sp fs
      ⟨db', insertSet v name, (pushList v i?).reverse ++ rest⟩) :
    Terminates sp fs ⟨db, v, name :: rest⟩ := by
  obtain ⟨n, r, hr⟩ := h
  exact ⟨n + 1, r, by rw [walkFuel_ok_step hs]; exact hr⟩

theorem walk_terminates_aux (sp : SearchPath) (fs : FileSys) (U : List String)
    (hU : ∀ x ∈ allImports fs, x ∈ U) :
    ∀ a : Nat, ∀ S : WalkState,
      (∀ q ∈ S.queue, q ∈ U) → dbInv U S.db → unvCount U S.visited ≤ a →
      Terminates sp fs S := by
  intro a
  induction a using Nat.strong_induction_on with
  | _ a iha =>
    suffices h : ∀ l (S : WalkState), (∀ q ∈ S.queue, q ∈ U) → dbInv U S.db →
        unvCount U S.visited ≤ a → S.queue.length ≤ l → Terminates sp fs S by
      intro S h1 h2 h3
      exact h S.queue.length S h1 h2 h3 le_rfl
    intro l
    induction l with
    | zero =>
      intro S h1 h2 h3 hl
      obtain ⟨db, v, q⟩ := S
      cases q with
      | nil => exact ⟨1, ⟨db, v, true⟩, rfl⟩
      | cons x xs => simp at hl
    | succ l ihl =>
      intro S h1 h2 h3 hl
      obtain ⟨db, v, q⟩ := S
      cases q with
      | nil => exact ⟨1, ⟨db, v, true⟩, rfl⟩
      | cons name rest =>
        cases hs : search_dll sp fs db name with
        | panic => exact ⟨1, ⟨db, v, false⟩, by simp [walkFuel, hs]⟩
        | err => exact ⟨1, ⟨db, v, false⟩, by simp [walkFuel, hs]⟩
        | ok p =>
          obtain ⟨db', i?⟩ := p
          have hinv := search_dll_inv hU h2 hs
          have hpushU : ∀ m ∈ pushList v i?, m ∈ U := by
            intro m hm
            cases i? with
            | none => simp [pushList] at hm
            | some info => exact hinv.2 info rfl m (mem_pushList_imports hm)
          have hqueueU : ∀ x ∈ (pushList v i?).reverse ++ rest, x ∈ U := by
            intro x hx
            rcases List.mem_append.mp hx with hx | hx
            · exact hpushU x (List.mem_reverse.mp hx)
            · exact h1 x (List.mem_cons_of_mem name hx)
          by_cases hv : name ∈ v
          · have hins : insertSet v name = v := insertSet_of_mem hv
            cases hpl : pushList v i? with
            | nil =>
              apply terminates_step_ok hs
              rw [hins, hpl]
              simp only [List.reverse_nil, List.nil_append]
              apply ihl ⟨db', v, rest⟩
              · intro x hx
                exact h1 x (List.mem_cons_of_mem name hx)
              · exact hinv.1
              · exact h3
              · show rest.length ≤ l
                simp only [List.length_cons] at hl
                omega
            | cons z zs =>
              have hrev : ∃ w ws, (pushList v i?).reverse = w :: ws := by
                rw [hpl]
                cases hzz : (z :: zs).reverse with
                | nil => exact absurd hzz (by simp)
                | cons w ws => exact ⟨w, ws, rfl⟩
              obtain ⟨w, ws, hw⟩ := hrev
              have hwmem : w ∈ pushList v i? := by
                have hww : w ∈ (pushList v i?).reverse := by
                  rw [hw]
                  exact List.mem_cons_self w ws
                exact List.mem_reverse.mp hww
              have hwv : w ∉ v := mem_pushList_not_visited hwmem
              have hwU : w ∈ U := hpushU w hwmem
              apply terminates_step_ok hs
              rw [hins, hw]
              cases hs2 : search_dll sp fs db' w with
              | panic => exact ⟨1, ⟨db', v, false⟩, by simp [walkFuel, hs2]⟩
              | err => exact ⟨1, ⟨db', v, false⟩, by simp [walkFuel, hs2]⟩
              | ok p2 =>
                obtain ⟨db'', i2?⟩ := p2
                have hinv2 := search_dll_inv hU hinv.1 hs2
                have hpushU2 : ∀ m ∈ pushList v i2?, m ∈ U := by
                  intro m hm
                  cases i2? with
                  | none => simp [pushList] at hm
                  | some info => exact hinv2.2 info rfl m (mem_pushList_imports hm)
                have hins2 : insertSet v w = w :: v := insertSet_of_not_mem hwv
                have hlt : unvCount U (w :: v) < unvCount U v :=
                  unvCount_cons_lt hwU hwv
                have hterm2 : Terminates sp fs
                    ⟨db'', insertSet v w,
                     (pushList v i2?).reverse ++ (ws ++ rest)⟩ := by
                  rw [hins2]
                  refine iha (unvCount U (w :: v)) (lt_of_lt_of_le hlt h3)
                    ⟨db'', w :: v, (pushList v i2?).reverse ++ (ws ++ rest)⟩
                    ?_ ?_ le_rfl
                  · intro x hx
                    rcases List.mem_append.mp hx with hx | hx
                    · exact hpushU2 x (List.mem_reverse.mp hx)
                    · rcases List.mem_append.mp hx with hx | hx
                      · have hxx : x ∈ (pushList v i?).reverse := by
                          rw [hw]
                          exact List.mem_cons_of_mem w hx
                        exact hpushU x (List.mem_reverse.mp hxx)
                      · exact h1 x (List.mem_cons_of_mem name hx)
                  · exact hinv2.1
                exact terminates_step_ok hs2 hterm2
          · have hins : insertSet v name = name :: v := insertSet_of_not_mem hv
            have hnameU : name ∈ U := h1 name (List.mem_cons_self name rest)
            have hlt : unvCount U (name :: v) < unvCount U v :=
              unvCount_cons_lt hnameU hv
            apply terminates_step_ok hs
            rw [hins]
            exact iha (unvCount U (name :: v)) (lt_of_lt_of_le hlt h3)
              ⟨db', name :: v, (pushList v i?).reverse ++ rest⟩
              hqueueU hinv.1 le_rfl

/-- A name the resolution computation succeeds for (deterministically, since
the computation is a pure function of snapshot and filesystem). -/
def successName (sp : SearchPath) (fs : FileSys) (name : String) : Prop :=
  ∃ info, computeDllInfo sp fs name = .ok (some info)

/-- Parse-count invariant: every successfully-resolvable name has either not
been parsed yet, or been parsed exactly once with its successful entry
already recorded (so it will never be recomputed). -/
def parseBound (sp : SearchPath) (fs : FileSys) (db : DllDatabase) : Prop :=
  ∀ name, successName sp fs name →
    parseCount db.log name = 0 ∨
    (parseCount db.log name = 1 ∧
      ∃ i, lookupA db.files name = some (some i))

theorem parseBound_step {sp : SearchPath} {fs : FileSys} {db db' : DllDatabase}
    {n : String} {r : Option DllInfo}
    (h : search_dll sp fs db n = .ok (db', r)) (hb : parseBound sp fs db) :
    parseBound sp fs db' := by
  by_cases hg : (get_dll_info db n).isNone
  · rw [Option.isNone_iff_eq_none] at hg
    cases hc : computeDllInfo sp fs n with
    | panic => rw [search_dll_fresh_panic hg hc] at h; exact absurd h (by simp)
    | err => exact absurd hc (computeDllInfo_ne_err sp fs n)
    | ok info0 =>
      rw [search_dll_fresh_ok hg hc] at h
      simp only [PRes.ok.injEq, Prod.mk.injEq] at h
      obtain ⟨hdb', hr⟩ := h
      rw [← hdb']
      intro name hsn
      by_cases hnn : name = n
      · subst hnn
        have h0 : parseCount db.log name = 0 := by
          rcases hb name hsn with h0 | ⟨_, i, hl⟩
          · exact h0
          · exfalso
            have hgd : get_dll_info db name = some i := by
              simp [get_dll_info, hl]
            rw [hg] at hgd
            exact Option.noConfusion hgd
        obtain ⟨inf2, hc2⟩ := hsn
        have hinfo0 : info0 = some inf2 := by
          rw [hc] at hc2
          simpa using hc2
        show parseCount (db.log ++ computeEvents sp fs name) name = 0 ∨
          (parseCount (db.log ++ computeEvents sp fs name) name = 1 ∧
            ∃ i, lookupA (insertA db.files name info0) name = some (some i))
        rw [parseCount_append, h0]
        have hle := parseCount_computeEvents_le sp fs name
        cases hpc : parseCount (computeEvents sp fs name) name with
        | zero => exact Or.inl (by omega)
        | succ k =>
          rw [hpc] at hle
          have hk : k = 0 := by omega
          subst hk
          refine Or.inr ⟨by omega, inf2, ?_⟩
          rw [lookupA_insertA_self, hinfo0]
      · rcases hb name hsn with h0 | ⟨h1, i, hl⟩
        · refine Or.inl ?_
          show parseCount (db.log ++ computeEvents sp fs n) name = 0
          rw [parseCount_append, h0, parseCount_computeEvents_ne sp fs hnn]
        · refine Or.inr ⟨?_, i, ?_⟩
          · show parseCount (db.log ++ computeEvents sp fs n) name = 1
            rw [parseCount_append, h1, parseCount_computeEvents_ne sp fs hnn]
          · show lookupA (insertA db.files n info0) name = some (some i)
            rw [lookupA_insertA_ne db.files n name info0 hnn]
            exact hl
  · have hsome : ∃ info, get_dll_info db n = some info := by
      cases hx : get_dll_info db n with
      | none => rw [hx] at hg; simp at hg
      | some i => exact ⟨i, rfl⟩
    obtain ⟨info, hinfo⟩ := hsome
    rw [search_dll_cached hinfo] at h
    simp only [PRes.ok.injEq, Prod.mk.injEq] at h
    rw [← h.1]
    exact hb

theorem walkFuel_parseBound (sp : SearchPath) (fs : FileSys) :
    ∀ (n : Nat) (S : WalkState) (r : WalkResult),
      walkFuel sp fs n S = some r → parseBound sp fs S.db →
      parseBound sp fs r.db := by
  intro n
  induction n with
  | zero => intro S r h; simp [walkFuel] at h
  | succ n ih =>
    intro S r h hb
    obtain ⟨db, v, q⟩ := S
    cases q with
    | nil =>
      simp only [walkFuel, Option.some.injEq] at h
      rw [← h]
      exact hb
    | cons name rest =>
      cases hs : search_dll sp fs db name with
      | panic =>
        have hw : walkFuel sp fs (n + 1) ⟨db, v, name :: rest⟩ =
            some ⟨db, v, false⟩ := by simp [walkFuel, hs]
        rw [hw] at h
        simp only [Option.some.injEq] at h
        rw [← h]
        exact hb
      | err =>
        have hw : walkFuel sp fs (n + 1) ⟨db, v, name :: rest⟩ =
            some ⟨db, v, false⟩ := by simp [walkFuel, hs]
        rw [hw] at h
        simp only [Option.some.injEq] at h
        rw [← h]
        exact hb
      | ok p =>
        obtain ⟨db', i?⟩ := p
        rw [walkFuel_ok_step hs] at h
        exact ih _ r h (parseBound_step hs hb)

theorem insertSet_nodup {v : List String} {x : String} (h : v.Nodup) :
    (insertSet v x).Nodup := by
  by_cases hx : x ∈ v
  · rw [insertSet_of_mem hx]; exact h
  · rw [insertSet_of_not_mem hx]; exact List.nodup_cons.mpr ⟨hx, h⟩

theorem mem_insertSet_self (v : List String) (x : String) :
    x ∈ insertSet v x := by
  by_cases hx : x ∈ v
  · rw [insertSet_of_mem hx]; exact hx
  · rw [insertSet_of_not_mem hx]; exact List.mem_cons_self x v

theorem mem_insertSet_of_mem {v : List String} {y : String} (x : String)
    (h : y ∈ v) : y ∈ insertSet v x := by
  by_cases hx : x ∈ v
  · rw [insertSet_of_mem hx]; exact h
  · rw [insertSet_of_not_mem hx]; exact List.mem_cons_of_mem x h

theorem walkFuel_root (sp : SearchPath) (fs : FileSys) (root : String) :
    ∀ (n : Nat) (S : WalkState) (r : WalkResult),
      walkFuel sp fs n S = some r → S.visited.Nodup →
      (root ∈ S.visited ∨ root ∈ S.queue) →
      r.visited.Nodup ∧ (r.completed = true → root ∈ r.visited) := by
  intro n
  induction n with
  | zero => intro S r h; simp [walkFuel] at h
  | succ n ih =>
    intro S r h hnd hroot
    obtain ⟨db, v, q⟩ := S
    cases q with
    | nil =>
      simp only [walkFuel, Option.some.injEq] at h
      rw [← h]
      refine ⟨hnd, fun _ => ?_⟩
      rcases hroot with hr | hr
      · exact hr
      · simp at hr
    | cons name rest =>
      cases hs : search_dll sp fs db name with
      | panic =>
        have hw : walkFuel sp fs (n + 1) ⟨db, v, name :: rest⟩ =
            some ⟨db, v, false⟩ := by simp [walkFuel, hs]
        rw [hw] at h
        simp only [Option.some.injEq] at h
        rw [← h]
        exact ⟨hnd, fun hc => absurd hc (by simp)⟩
      | err =>
        have hw : walkFuel sp fs (n + 1) ⟨db, v, name :: rest⟩ =
            some ⟨db, v, false⟩ := by simp [walkFuel, hs]
        rw [hw] at h
        simp only [Option.some.injEq] at h
        rw [← h]
        exact ⟨hnd, fun hc => absurd hc (by simp)⟩
      | ok p =>
        obtain ⟨db', i?⟩ := p
        rw [walkFuel_ok_step hs] at h
        refine ih _ r h (insertSet_nodup hnd) ?_
        rcases hroot with hr | hr
        · exact Or.inl (mem_insertSet_of_mem name hr)
        · rcases List.mem_cons.mp hr with hr | hr
          · rw [hr]
            exact Or.inl (mem_insertSet_self v name)
          · exact Or.inr (List.mem_append_right _ hr)

/-- C7 (amended): for every snapshot, filesystem and root name, the graph
walk terminates (some finite fuel completes it); the seen-set never holds a
name twice, so on normal completion the root module was visited exactly
once; and the Catalog performs at most one parse per distinct name whose
resolution succeeds.  (The original claim's at-most-one-parse for every
name is dropped: a name resolving to an unparsable file is re-parsed on
every pop because the failed `None` entry does not stop recomputation — see
the counterexample.) -/
theorem c7_walk_terminates :
    ∀ (sp : SearchPath) (fs : FileSys) (root : String),
      ∃ (n : Nat) (r : WalkResult),
        walkFuel sp fs n (initWalk root) = some r ∧
        r.visited.Nodup ∧
        (r.completed = true → r.visited.count root = 1) ∧
        (∀ name, successName sp fs name → parseCount r.db.log name ≤ 1) := by
  intro sp fs root
  have hU : ∀ x ∈ allImports fs, x ∈ root :: allImports fs :=
    fun x hx => List.mem_cons_of_mem root hx
  have hterm : Terminates sp fs (initWalk root) := by
    refine walk_terminates_aux sp fs (root :: allImports fs) hU
      (unvCount (root :: allImports fs) []) (initWalk root) ?_ ?_ le_rfl
    · intro q hq
      have hq' : q = root := by simpa [initWalk] using hq
      rw [hq']
      exact List.mem_cons_self _ _
    · intro n info hl
      simp [DllDatabase.empty, lookupA] at hl
  obtain ⟨n, r, hwf⟩ := hterm
  have hroot := walkFuel_root sp fs root n (initWalk root) r hwf
    (by simp [initWalk]) (Or.inr (by simp [initWalk]))
  have hpb := walkFuel_parseBound sp fs n (initWalk root) r hwf
    (by
      intro name hsn
      refine Or.inl ?_
      simp [initWalk, DllDatabase.empty, parseCount])
  refine ⟨n, r, hwf, hroot.1, fun hc => ?_, fun name hsn => ?_⟩
  · exact List.count_eq_one_of_mem hroot.1 (hroot.2 hc)
  · rcases hpb name hsn with h0 | ⟨h1, _⟩
    · omega
    · omega

/-- Witness for C7 at a concrete snapshot, filesystem and root. -/
theorem c7_walk_terminates_witness :
    ∃ (n : Nat) (r : WalkResult),
      walkFuel spEmptyEx [] n (initWalk "a.dll") = some r ∧
      r.visited.Nodup ∧
      (r.completed = true → r.visited.count "a.dll" = 1) ∧
      (∀ name, successName spEmptyEx [] name → parseCount r.db.log name ≤ 1) :=
  c7_walk_terminates spEmptyEx [] "a.dll"

/-- A snapshot whose base directory resolves both the root name a.exe and
the imported name x.dll. -/
def spC7 : SearchPath :=
  ⟨true, [("a.exe", "/A"), ("x.dll", "/x")], [], [], [], [], []⟩

/-- A filesystem where the root file parses (importing x.dll twice) and the
file behind x.dll is unparsable. -/
def fsC7 : FileSys := [("/A", peFileA), ("/x", [])]

set_option maxRecDepth 200000 in
/-- Counterexample to C7 as stated: walking from A.exe completes, but the
name x.dll — pushed twice, resolving to an unparsable file — is parsed
twice, because the second pop finds only the failed `None` entry and
recomputes; so the Catalog does not bound parses to one per distinct
name. -/
theorem c7_double_parse :
    (walkFuel spC7 fsC7 5 (initWalk "A.exe")).map
        (fun r => (r.completed, parseCount r.db.log "x.dll")) =
      some (true, 2) := by decide

end Dllwalk
